import Mathlib

/-!
Verification of the goldengate policy-driven HTTP proxy.

The Python sources are shallowly embedded: Python 2 byte strings become
`List Char` (written `Str`), dicts become association lists, stateful code
becomes explicit state passing, exceptions become `Except`/`Option`, and
calls into the interpreter's standard library (`time.strptime`, `random`,
`hmac`) become explicit parameters of the embedded functions.
-/

namespace GG

/-- Python 2 byte strings (`str`) are modelled as lists of characters. -/
abbrev Str : Type := List Char

/-- Write a `Str` from a Lean string literal. -/
def S (s : String) : Str := s.data

/-- All characters of `s` are in byte range; Python 2 `str` values are byte
strings (`_utf8_str` in auth/aws.py UTF-8-encodes unicode before use). -/
def ByteStr (s : Str) : Prop := ∀ c ∈ s, c.toNat < 256

instance (s : Str) : Decidable (ByteStr s) :=
  inferInstanceAs (Decidable (∀ c ∈ s, c.toNat < 256))

/-- Python `str.lower()` (ASCII lowercasing of a byte string). -/
def lowerStr (s : Str) : Str := s.map Char.toLower

/-- The characters `urllib.quote(s, safe='-_~')` leaves unescaped: urllib's
`always_safe` (letters, digits, `_.-`) together with the extra safe set
`-_~` passed by `escape` in rules/aws.py. -/
def isSafeChar (c : Char) : Bool :=
  c.isAlpha || c.isDigit || c == '-' || c == '_' || c == '.' || c == '~'

/-- Uppercase hexadecimal digit, as produced by Python's `'%%%02X' % i`. -/
def hexChar : Nat → Char
  | 0 => '0' | 1 => '1' | 2 => '2' | 3 => '3'
  | 4 => '4' | 5 => '5' | 6 => '6' | 7 => '7'
  | 8 => '8' | 9 => '9' | 10 => 'A' | 11 => 'B'
  | 12 => 'C' | 13 => 'D' | 14 => 'E' | 15 => 'F'
  | _ => '0'

/-- Encoding of one byte by `urllib.quote`: safe characters stand for
themselves, every other byte becomes `%XX` (two uppercase hex digits). -/
def escChar (c : Char) : Str :=
  if isSafeChar c then [c] else ['%', hexChar (c.toNat / 16), hexChar (c.toNat % 16)]

/-- `escape` from rules/aws.py: `urllib.quote(s, safe='-_~')`. -/
def escape (s : Str) : Str := (s.map escChar).flatten

/-- Python `'&'.join(xs)`. -/
def joinAmp : List Str → Str
  | [] => []
  | [x] => x
  | x :: y :: rest => x ++ '&' :: joinAmp (y :: rest)

/-- One `k=v` component of a canonical query string: `'%s=%s' % (escape(k), escape(v))`. -/
def encPair (p : Str × Str) : Str := escape p.1 ++ '=' :: escape p.2

/-- Python 2 tuple comparison on pairs of strings: lexicographic on the key,
then on the value.  This is the order used by `sorted(...)`/`list.sort()` on
`(key, value)` parameter pairs. -/
def PairLe (p q : Str × Str) : Prop := p.1 < q.1 ∨ (p.1 = q.1 ∧ p.2 ≤ q.2)

instance : DecidableRel PairLe := fun p q =>
  inferInstanceAs (Decidable (p.1 < q.1 ∨ (p.1 = q.1 ∧ p.2 ≤ q.2)))

instance : IsTotal (Str × Str) PairLe where
  total p q := by
    rcases lt_trichotomy p.1 q.1 with h | h | h
    · exact Or.inl (Or.inl h)
    · rcases le_total p.2 q.2 with h2 | h2
      · exact Or.inl (Or.inr ⟨h, h2⟩)
      · exact Or.inr (Or.inr ⟨h.symm, h2⟩)
    · exact Or.inr (Or.inl h)

instance : IsTrans (Str × Str) PairLe where
  trans p q r h1 h2 := by
    rcases h1 with h1 | ⟨h1e, h1v⟩
    · rcases h2 with h2 | ⟨h2e, _⟩
      · exact Or.inl (lt_trans h1 h2)
      · exact Or.inl (h2e ▸ h1)
    · rcases h2 with h2 | ⟨h2e, h2v⟩
      · exact Or.inl (h1e ▸ h2)
      · exact Or.inr ⟨h1e.trans h2e, le_trans h1v h2v⟩

instance : IsAntisymm (Str × Str) PairLe where
  antisymm p q h1 h2 := by
    rcases h1 with h1 | ⟨h1e, h1v⟩
    · rcases h2 with h2 | ⟨h2e, _⟩
      · exact absurd h2 (lt_asymm h1)
      · exact absurd h1 (h2e ▸ lt_irrefl _)
    · rcases h2 with h2 | ⟨_, h2v⟩
      · exact absurd h2 (h1e ▸ lt_irrefl _)
      · exact Prod.ext h1e (le_antisymm h1v h2v)

/-- Python `list.sort()` on `(key, value)` string pairs. -/
def sortParams (l : List (Str × Str)) : List (Str × Str) := List.insertionSort PairLe l

/-- Modelled from the spec: `goldengate.http.urlencode` (goldengate/http.py is
not under src/) — each pair is emitted as `k=v` with both sides
percent-encoded per RFC 3986 unreserved with safe set `-_~`, joined by `&`;
identical to the in-src encoding in rules/aws.py
(`'&'.join('%s=%s' % (escape(k), escape(v)))`). -/
def urlencode (l : List (Str × Str)) : Str := joinAmp (l.map encPair)

/-- The `Signature` parameter name. -/
def sigKey : Str := S "Signature"

/-- Keep the parameters that enter the canonical string (`if k != 'Signature'`). -/
def nonSig (p : Str × Str) : Bool := p.1 != sigKey

/-- Python `s.split(sep)` for a one-character separator. -/
def splitChar (sep : Char) : Str → List Str
  | [] => [[]]
  | c :: rest =>
    match splitChar sep rest with
    | [] => [[c]]
    | h :: t => if c = sep then [] :: h :: t else (c :: h) :: t

/-- Python `''.join(xs)`. -/
def joinEmpty (xs : List Str) : Str := xs.flatten

/-- Python `s.split(sep, 1)` when it yields two pieces: the text before the
first occurrence of `sep` and everything after it; `none` when `sep` is
absent (in which case a two-target unpacking in Python raises `ValueError`). -/
def splitFirst (sep : Char) : Str → Option (Str × Str)
  | [] => none
  | c :: rest =>
    if c = sep then some ([], rest)
    else (splitFirst sep rest).map (fun p => (c :: p.1, p.2))

/-- Dict read `d[k]` on an association-list model of a Python dict
(`none` models `KeyError` at use sites that index directly). -/
def dictGet {β : Type} (l : List (Str × β)) (k : Str) : Option β :=
  (l.find? (fun p => p.1 == k)).map (·.2)

/-- Dict write `d[k] = v`: replace the value under an existing key, else
append a new binding. -/
def dictSet {β : Type} (l : List (Str × β)) (k : Str) (v : β) : List (Str × β) :=
  if l.any (fun p => p.1 == k) then l.map (fun p => if p.1 == k then (k, v) else p)
  else l ++ [(k, v)]

/-- Dict read on a query-parameter mapping. -/
def getParam (l : List (Str × Str)) (k : Str) : Option Str := dictGet l k

/-- Dict write on a query-parameter mapping. -/
def setParam (l : List (Str × Str)) (k : Str) (v : Str) : List (Str × Str) :=
  dictSet l k v

/-- Change the value stored under key `k` to `v` (the query-parameter
mutation considered by the round-trip property). -/
def mutateParam (l : List (Str × Str)) (k : Str) (v : Str) : List (Str × Str) :=
  l.map (fun p => if p.1 == k then (k, v) else p)

/-- The URL component of a goldengate HTTP request (goldengate/http.py is not
under src/; fields follow the spec's Request data model: scheme, host, path
and the query-parameter mapping). -/
structure URL where
  scheme : Str
  host : Str
  path : Str
  params : List (Str × Str)

/-- An AWS-signed request (class `Request` in auth/aws.py). -/
structure AWSRequest where
  method : Str
  url : URL

/-- `Request.get_normalized_http_method`. -/
def getNormalizedHttpMethod (r : AWSRequest) : Str := r.method

/-- `Request.get_normalized_http_host`: lowercase the host; when the scheme
is http and the host ends with `:80`, or the scheme is https and the host
ends with `:443`, replace it by `''.join(host.split(':')[:-1])`. -/
def getNormalizedHttpHost (r : AWSRequest) : Str :=
  let host := lowerStr r.url.host
  let scheme := lowerStr r.url.scheme
  if (scheme = S "http" ∧ (S ":80").isSuffixOf host) ∨
     (scheme = S "https" ∧ (S ":443").isSuffixOf host) then
    joinEmpty ((splitChar ':' host).dropLast)
  else host

/-- `Request.get_normalized_http_path`: the path, or `/` when it is empty. -/
def getNormalizedHttpPath (r : AWSRequest) : Str :=
  if r.url.path = [] then S "/" else r.url.path

/-- `Request.get_normalized_parameters`: sort the `(key, value)` pairs, drop
`Signature`, percent-encode and join (auth/aws.py line 95-97). -/
def getNormalizedParameters (r : AWSRequest) : Str :=
  urlencode ((sortParams r.url.params).filter nonSig)

/-- An AWS signature method: its advertised name and version together with
the keyed MAC it computes.  `mac secret base` stands for
`base64.b64encode(hmac.new(secret, base, H).digest())` with `H` the method's
hash; the HMAC and Base64 primitives live in the Python standard library,
outside the embedded sources, so the composite is an explicit parameter. -/
structure SigMethod where
  name : Str
  version : Str
  mac : Str → Str → Str

/-- `SignatureMethod.build_signature_base_string` (auth/aws.py): the four
normalized components joined by newlines. -/
def buildSignatureBaseString (r : AWSRequest) : Str :=
  getNormalizedHttpMethod r ++ '\n' ::
  (getNormalizedHttpHost r ++ '\n' ::
  (getNormalizedHttpPath r ++ '\n' ::
  getNormalizedParameters r))

/-- `SignatureMethod_HMAC_*.build_signature` (auth/aws.py). -/
def buildSignature (m : SigMethod) (r : AWSRequest) (secret : Str) : Str :=
  m.mac secret (buildSignatureBaseString r)

/-- The prepared clone inside `Request.signed_request`: the request carrying
the four signature parameters, before the signature itself is attached
(auth/aws.py lines 115-120). -/
def preparedRequest (r : AWSRequest) (m : SigMethod) (awsKey tsStr : Str) : AWSRequest :=
  let p0 := setParam r.url.params (S "AWSAccessKeyId") awsKey
  let p1 := setParam p0 (S "SignatureVersion") m.version
  let p2 := setParam p1 (S "SignatureMethod") m.name
  let p3 := setParam p2 (S "Timestamp") tsStr
  { r with url := { r.url with params := p3 } }

/-- `Request.signed_request` (auth/aws.py lines 114-123): set the four
signature parameters, compute the signature of that prepared request, and
return a clone carrying the signature as the `Signature` parameter.
`tsStr` is the value produced by `generate_timestamp()` (a strftime of the
current time, an interpreter-library call). -/
def signedRequest (r : AWSRequest) (m : SigMethod) (awsKey awsSecret tsStr : Str) :
    AWSRequest :=
  let prepared := preparedRequest r m awsKey tsStr
  let sig := buildSignature m prepared awsSecret
  { r with url := { r.url with params := setParam prepared.url.params sigKey sig } }

/-- `_are_equal` (auth/aws.py lines 25-30).  `rot` is the value returned by
`random.randint(0, len(this)-1)`; when both strings are empty that call
raises `ValueError` (`randint(0, -1)`), modelled as `none`, as is an
out-of-range `rot` (which `randint` never returns). -/
def areEqual (this that : Str) (rot : Nat) : Option Bool :=
  if this.length ≠ that.length then some false
  else if this.length = 0 then none
  else if rot < this.length then
    some ((this.take rot ++ this.drop rot) == (that.take rot ++ that.drop rot))
  else none

/-- A credential loaded from the credential store: access key, secret and
the entity (principal) it belongs to. -/
structure Credential where
  key : Str
  secret : Str
  entity : Str

/-- Modelled from the spec: `CredentialStore.for_key` (the credential store
class is not under src/) — the read-only lookup of a credential by access
key, returning null when the key is unknown. -/
def forKey (creds : List Credential) (k : Str) : Option Credential :=
  creds.find? (fun c => c.key == k)

/-- `Authenticator.get_signature_method`: the first configured method whose
name and version both match, if any (a miss raises
`UnauthenticatedException`). -/
def getSigMethod (methods : List SigMethod) (name version : Str) : Option SigMethod :=
  methods.find? (fun m => m.name == name && m.version == version)

/-- `Authenticator.TIMESTAMP_THRESHOLD`. -/
def TIMESTAMP_THRESHOLD : Int := 300

/-- `Authenticator.authenticate` (auth/aws.py lines 142-172).  `parseTs`
stands for `parse_timestamp` (strptime/timegm, interpreter-library calls;
`none` models `ValueError`), `now` for `time.time()` (the two calls on line
159-160 are modelled as a single instant), and `rot` for the random
rotation index drawn inside `_are_equal`. -/
def authenticate (methods : List SigMethod) (creds : List Credential)
    (parseTs : Str → Option Int) (now : Int) (rot : Nat) (r : AWSRequest) :
    Except Str Str :=
  match getParam r.url.params (S "AWSAccessKeyId"),
        getParam r.url.params sigKey,
        getParam r.url.params (S "SignatureMethod"),
        getParam r.url.params (S "SignatureVersion"),
        getParam r.url.params (S "Timestamp") with
  | some awsKey, some signature, some smName, some svName, some tsS =>
    match parseTs tsS with
    | none => .error (S "bad timestamp")
    | some ts =>
      if ts > now ∨ ts < now - TIMESTAMP_THRESHOLD then .error (S "bad timestamp")
      else
        match forKey creds awsKey with
        | none => .error (S "signature mismatch")
        | some cred =>
          match getSigMethod methods smName svName with
          | none => .error (S "invalid signature method or signature version")
          | some signer =>
            match areEqual signature (buildSignature signer r cred.secret) rot with
            | some true => .ok cred.entity
            | some false => .error (S "signature mismatch")
            | none => .error (S "ValueError")
  | _, _, _, _, _ => .error (S "missing required signature parameters.")

/-- The characters urllib's `always_safe` never escapes (letters, digits,
`_.-`); `quote_plus` passes an empty extra safe set. -/
def isAlwaysSafeChar (c : Char) : Bool :=
  c.isAlpha || c.isDigit || c == '-' || c == '_' || c == '.'

/-- One character under `urllib.quote_plus`: a space becomes `+`, an
always-safe byte stands for itself, anything else becomes `%XX`. -/
def quotePlusChar (c : Char) : Str :=
  if c = ' ' then ['+']
  else if isAlwaysSafeChar c then [c]
  else ['%', hexChar (c.toNat / 16), hexChar (c.toNat % 16)]

/-- `urllib.quote_plus` as used on the computed signature in rules/aws.py. -/
def quotePlus (s : Str) : Str := (s.map quotePlusChar).flatten

/-- The mutable dict built by `encode_request` / inside
`AWSSignModifyRule.__call__` (rules/aws.py): the webob request's params,
method, headers and path. -/
structure RulesReq where
  params : List (Str × Str)
  method : Str
  headers : List (Str × Str)
  path : Str

/-- webob header read: header names compare case-insensitively; `none`
models a `KeyError` on `headers['...']`. -/
def lookupHeader (hs : List (Str × Str)) (k : Str) : Option Str :=
  (hs.find? (fun p => lowerStr p.1 == lowerStr k)).map (·.2)

/-- webob `del headers[k]`: drop every binding of the (case-insensitive)
name. -/
def removeHeader (hs : List (Str × Str)) (k : Str) : List (Str × Str) :=
  hs.filter (fun p => lowerStr p.1 != lowerStr k)

/-- `SignatureMethod.build_signature_base_string` (rules/aws.py lines
67-85): returns the canonical parameter string together with the base
string `method \n Host.lower() \n (path or '/') \n params`; `none` models
the `KeyError` when the request has no Host header. -/
def buildSignatureBaseStringR (r : RulesReq) : Option (Str × Str) :=
  let params := joinAmp (((sortParams r.params).filter nonSig).map encPair)
  (lookupHeader r.headers (S "Host")).map (fun host =>
    (params,
     r.method ++ '\n' ::
     (lowerStr host ++ '\n' ::
     ((if r.path = [] then S "/" else r.path) ++ '\n' :: params))))

/-- `SignatureMethod_HMAC_*.build_signature` (rules/aws.py): the canonical
parameter string and the base64 HMAC of the base string. -/
def buildSignatureR (m : SigMethod) (r : RulesReq) (secret : Str) : Option (Str × Str) :=
  (buildSignatureBaseStringR r).map (fun pb => (pb.1, m.mac secret pb.2))

/-- `AWSSignatureFilterRule.validate_timestamp` (rules/aws.py lines
192-208).  `parseTs` models `parse_timestamp` (`none` = `ValueError` from
`strptime`), `now` models `time.time()`, `maxAge` is
`self.max_signature_age`; errors are the `RuleException`s raised. -/
def validateTimestamp (parseTs : Str → Option Int) (now maxAge : Int)
    (params : List (Str × Str)) : Except Str Bool :=
  match getParam params (S "Timestamp") with
  | none => .error (S "KeyError: Timestamp")
  | some tsS =>
    match parseTs tsS with
    | none => .error (S "ValueError: unparseable Timestamp")
    | some ts =>
      let expiresCheck : Except Str Unit :=
        match getParam params (S "Expires") with
        | none => .ok ()
        | some eS =>
          match parseTs eS with
          | none => .error (S "ValueError: unparseable Expires")
          | some ex =>
            if ex < now then .error (S "Request Expires time is in the past")
            else .ok ()
      match expiresCheck with
      | .error e => .error e
      | .ok _ =>
        if ts > now then .error (S "Timestamp may not be in the future")
        else if maxAge ≠ 0 ∧ ts < now - maxAge then
          .error (S "Timestamp may not be more than max_signature_age seconds ago")
        else .ok true

/-- The request shape seen by `AWSSignModifyRule.__call__`: a webob request
with its adhoc override slot `goldengate_url`, its content type and body. -/
structure ModRequest where
  url : Str
  goldengateUrl : Option Str
  headers : List (Str × Str)
  params : List (Str × Str)
  method : Str
  path : Str
  contentType : Str
  body : Str

/-- The `params.update(...)` of `AWSSignModifyRule.__call__`: the copied
parameter dict with the four signature parameters written in. -/
def awsSignParams (key sigVersion sigMethodName tsStr : Str)
    (p : List (Str × Str)) : List (Str × Str) :=
  setParam (setParam (setParam (setParam p (S "AWSAccessKeyId") key)
    (S "SignatureVersion") sigVersion) (S "SignatureMethod") sigMethodName)
    (S "Timestamp") tsStr

/-- The header mutation of `AWSSignModifyRule.__call__`: delete an existing
`Authorization` header. -/
def awsSignHeaders (hs : List (Str × Str)) : List (Str × Str) :=
  if (lookupHeader hs (S "Authorization")).isSome then
    removeHeader hs (S "Authorization")
  else hs

/-- `AWSSignModifyRule.__call__` (rules/aws.py lines 286-324).  `signer` is
`self.signer`, `sigMethodName`/`sigVersion` are the configured
`signature_method`/`signature_version` strings, `key`/`secret` the loaded
signing credential and `tsStr` the `generate_timestamp()` value.  The two
error points model the uncaught `ValueError` of the two-target unpacking
when the URL has no `?`, and the `KeyError` when there is no Host header. -/
def awsSignCall (signer : SigMethod) (sigMethodName sigVersion key secret tsStr : Str)
    (request : ModRequest) : Except Str ModRequest :=
  let url0 := request.goldengateUrl.getD request.url
  match splitFirst '?' url0 with
  | none => .error (S "ValueError: need more than 1 value to unpack")
  | some (url, _query) =>
    let headers := awsSignHeaders request.headers
    let r : RulesReq := { params := awsSignParams key sigVersion sigMethodName tsStr request.params,
                          method := request.method,
                          headers := headers, path := request.path }
    match buildSignatureR signer r secret with
    | none => .error (S "KeyError: Host")
    | some (params, signature0) =>
      let signature := quotePlus signature0
      if request.contentType = S "application/x-www-form-urlencoded" then
        .ok { request with headers := headers,
                           body := params ++ S "&Signature=" ++ signature }
      else
        .ok { request with headers := headers,
                           goldengateUrl :=
                             some (url ++ '?' :: (params ++ S "&Signature=" ++ signature)) }

/-- The bundled rule classes, in the order their modules register them
(rules/__init__.py imports match, filter, modify, aws). -/
inductive RuleClass
  | allMatch | noneMatch | requestMatch | headerMatch
  | allFilter | noneFilter | requestFilter | headerFilter
  | headerModify | urlModify | requestModify
  | awsSignatureFilter | awsSignModify
  deriving DecidableEq

/-- `Rule.ruletype` of each bundled class. -/
def ruletypeOf : RuleClass → Str
  | .allMatch | .noneMatch | .requestMatch | .headerMatch => S "match"
  | .allFilter | .noneFilter | .requestFilter | .headerFilter
  | .awsSignatureFilter => S "filter"
  | .headerModify | .urlModify | .requestModify | .awsSignModify => S "modify"

/-- `Rule.verbs` of each bundled class. -/
def verbsOf : RuleClass → List Str
  | .allMatch | .allFilter => [S "all"]
  | .noneMatch | .noneFilter => [S "none"]
  | .requestMatch | .requestFilter =>
    [S "method", S "scheme", S "script_name", S "path_info", S "remote_user",
     S "remote_addr", S "host", S "host_url", S "application_url", S "path_url",
     S "url", S "path", S "path_qs", S "query_string"]
  | .headerMatch | .headerFilter | .headerModify => [S "header"]
  | .urlModify => [S "url", S "method"]
  | .requestModify => [S "content_type", S "charset", S "host", S "body", S "cache_control"]
  | .awsSignatureFilter => [S "aws_signature"]
  | .awsSignModify => [S "aws_sign"]

/-- `add_rule` (rules/__init__.py lines 4-12): register the class under
`(ruletype, verb)` for each of its verbs.  The bundled verbs never collide
within one ruletype, so appending matches the dict-assignment semantics. -/
def addRule (reg : List ((Str × Str) × RuleClass)) (c : RuleClass) :
    List ((Str × Str) × RuleClass) :=
  reg ++ (verbsOf c).map (fun v => ((ruletypeOf c, v), c))

/-- The registry `all_rules` after the bundled modules are imported. -/
def allRules : List ((Str × Str) × RuleClass) :=
  [RuleClass.allMatch, RuleClass.noneMatch, RuleClass.requestMatch, RuleClass.headerMatch,
   RuleClass.allFilter, RuleClass.noneFilter, RuleClass.requestFilter, RuleClass.headerFilter,
   RuleClass.headerModify, RuleClass.urlModify, RuleClass.requestModify,
   RuleClass.awsSignatureFilter, RuleClass.awsSignModify].foldl addRule []

/-- `find_rule` (rules/__init__.py lines 15-21): collapse
`modify_request`/`modify_response` to `modify` and `audit_request`/
`audit_response` to `audit`, then look the verb up; `none` models the
`KeyError` of a missing registry entry. -/
def findRule (ruletype verb : Str) : Option RuleClass :=
  let rt := if (S "modify_").isPrefixOf ruletype then S "modify"
            else if (S "audit_").isPrefixOf ruletype then S "audit"
            else ruletype
  (allRules.find? (fun e => e.1.1 == rt && e.1.2 == verb)).map (·.2)

/-- `RuleEngine.test_filter` (goldengate/__init__.py lines 72-86).  Each
compiled filter rule is its action token (`text[0]`) and its predicate; the
loop evaluates the predicate, then returns `not result` for a `reject`
rule, `result` for a `permit` rule, and otherwise falls through to the next
rule; `none` models falling off the loop (Python returns `None`). -/
def testFilter {ρ : Type} : List (Str × (ρ → Bool)) → ρ → Option Bool
  | [], _ => none
  | (action, pred) :: rest, req =>
    let result := pred req
    if action = S "reject" then some (!result)
    else if action = S "permit" then some result
    else testFilter rest req

/-- One compiled ruleset as used by `Application.__call__`: its five stage
procedures over abstract request/response types, each able to raise
(`Except.error`).  The filter stage yields `test_filter`'s tri-state
result. -/
structure Ruleset (ρ σ : Type) where
  matchStage : ρ → Except Unit Bool
  filterStage : ρ → Except Unit (Option Bool)
  modifyRequestStage : ρ → Except Unit ρ
  proxy : ρ → Except Unit σ
  modifyResponseStage : σ → Except Unit σ

/-- What the WSGI application invoked while handling one request. -/
inductive Event
  | matchRun (i : Nat)
  | filterRun (i : Nat)
  | modifyRequestRun (i : Nat)
  | proxyRun (i : Nat)
  | modifyResponseRun (i : Nat)
  deriving DecidableEq

/-- The response `Application.__call__` flushes: a short-circuit status with
its body, or whatever the upstream proxy returned (after
`modify_response`). -/
inductive GGResponse (σ : Type)
  | short (status : Nat) (body : Str)
  | upstream (r : σ)
  deriving DecidableEq

/-- Body of the 500 short-circuit response. -/
def body500 : Str := S "Internal Server Error"

/-- Body of the 403 short-circuit response. -/
def body403 : Str := S "Verboten\n"

/-- Body of the 501 short-circuit response. -/
def body501 : Str := S "This shouldn" ++ '\'' :: S "t happen.\n"

/-- The ruleset loop of `Application.__call__` (goldengate/__init__.py lines
233-254), instrumented with the events it runs.  A rule stage that raises
is caught by the `except` and yields 500; `continue` only happens when the
match stage returns false without raising; every other path `break`s. -/
def runRulesets {ρ σ : Type} (req : ρ) : Nat → List (Ruleset ρ σ) → GGResponse σ × List Event
  | _, [] => (.short 501 body501, [])
  | i, rs :: rest =>
    match rs.matchStage req with
    | .error _ => (.short 500 body500, [.matchRun i])
    | .ok false =>
      let r := runRulesets req (i + 1) rest
      (r.1, .matchRun i :: r.2)
    | .ok true =>
      match rs.filterStage req with
      | .error _ => (.short 500 body500, [.matchRun i, .filterRun i])
      | .ok dec =>
        if dec ≠ some true then (.short 403 body403, [.matchRun i, .filterRun i])
        else
          match rs.modifyRequestStage req with
          | .error _ =>
            (.short 500 body500, [.matchRun i, .filterRun i, .modifyRequestRun i])
          | .ok req' =>
            match rs.proxy req' with
            | .error _ =>
              (.short 500 body500,
               [.matchRun i, .filterRun i, .modifyRequestRun i, .proxyRun i])
            | .ok resp =>
              match rs.modifyResponseStage resp with
              | .error _ =>
                (.short 500 body500,
                 [.matchRun i, .filterRun i, .modifyRequestRun i, .proxyRun i,
                  .modifyResponseRun i])
              | .ok resp' =>
                (.upstream resp',
                 [.matchRun i, .filterRun i, .modifyRequestRun i, .proxyRun i,
                  .modifyResponseRun i])

/-- `Application.__call__` over the configured rulesets. -/
def runPipeline {ρ σ : Type} (rules : List (Ruleset ρ σ)) (req : ρ) :
    GGResponse σ × List Event :=
  runRulesets req 0 rules

/-- Modelled from the spec: the TimeLock store (`kvstore.models` is an
external dependency) — a mapping from uuid to the cancelled flag with
atomic insert/get/update. -/
abbrev Store := List (Str × Bool)

/-- `TimeLock.get`. -/
def storeGet (st : Store) (uid : Str) : Option Bool := dictGet st uid

/-- `TimeLock(...).save()`: write the flag under the uuid. -/
def storeSet (st : Store) (uid : Str) (v : Bool) : Store := dictSet st uid v

/-- `TimeLockPolicy.cancel` (policy.py lines 124-131): a missing uuid
raises; otherwise the lock is marked cancelled and saved. -/
def cancelTimeLock (st : Store) (uid : Str) : Except Str Store :=
  match storeGet st uid with
  | none => .error (S "Couldn" ++ '\'' :: S "t find request with uuid")
  | some _ => .ok (storeSet st uid true)

/-- A store operation another task may perform while `grant` sleeps. -/
inductive StoreOp
  | insert (uid : Str)
  | cancel (uid : Str)
  deriving DecidableEq

/-- Effect of a concurrent operation on the store: an insert begins a fresh
lock; a cancel of a present lock marks it cancelled (a concurrent cancel of
a missing id raises in its own task and leaves the store unchanged). -/
def applyOp (st : Store) : StoreOp → Store
  | .insert uid => storeSet st uid false
  | .cancel uid =>
    match storeGet st uid with
    | none => st
    | some _ => storeSet st uid true

/-- The operations interleaved during the sleep, applied in order. -/
def applyOps (st : Store) (ops : List StoreOp) : Store := ops.foldl applyOp st

/-- Python `s.replace(pat, rep)`: left-to-right, non-overlapping. -/
def replaceAll (pat rep : Str) (s : Str) : Str :=
  if _h : pat = [] then s
  else
    match s with
    | [] => []
    | c :: rest =>
      if pat.isPrefixOf (c :: rest) then
        rep ++ replaceAll pat rep ((c :: rest).drop pat.length)
      else c :: replaceAll pat rep rest
  termination_by s.length
  decreasing_by
  · simp only [List.length_drop, List.length_cons]
    have : 1 ≤ pat.length := List.length_pos.mpr _h
    omega
  · simp

/-- `render_template` (policy.py lines 42-49): replace each
`\x7b\x7b key \x7d\x7d` token by its context value. -/
def renderTemplate (template : Str) (ctx : List (Str × Str)) : Str :=
  ctx.foldl
    (fun t kv => replaceAll (S "\x7b\x7b " ++ kv.1 ++ S " \x7d\x7d") kv.2 t) template

/-- The externally visible actions of `TimeLockPolicy.grant`. -/
inductive GrantEvent
  | saved (uid : Str) (cancelled : Bool)
  | notified (recipients : List Str) (message : Str)
  | slept (seconds : Int)
  deriving DecidableEq

/-- `TimeLockPolicy.grant` (policy.py lines 133-147).  `uid` is the fresh
`uuid4().get_hex()`, `requestInformation`/`execTime`/`durStr` the rendered
context values produced by interpreter-library calls (json dump, strftime,
float formatting), and `midOps` the store operations other tasks apply
while this one sleeps.  The result is the returned boolean (`error` models
the impossible `AttributeError` were the lock to vanish), the final store,
and the trace of save, notification and sleep. -/
def grant (st : Store) (uid : Str) (lockDuration : Int) (tpl : Str)
    (recipients : List Str) (requestInformation execTime durStr : Str)
    (midOps : List StoreOp) : Except Str Bool × Store × List GrantEvent :=
  let st1 := storeSet st uid false
  let message := renderTemplate tpl
    [(S "request_information", requestInformation),
     (S "request_execution_time", execTime),
     (S "time_lock_duration", durStr),
     (S "request_uuid", uid)]
  let st2 := applyOps st1 midOps
  let result : Except Str Bool :=
    match storeGet st2 uid with
    | none => .error (S "AttributeError")
    | some c => .ok (!c)
  (result, st2,
   [.saved uid false, .notified recipients message, .slept lockDuration])

/-- Replace the value of one query parameter of a request (the mutation of
the signed form considered by the round-trip property). -/
def mutateRequest (r : AWSRequest) (k v : Str) : AWSRequest :=
  { r with url := { r.url with params := mutateParam r.url.params k v } }

/-- The normalized host as the specification words it: the lowercased host
with the port suffix stripped when scheme http pairs with `:80` or scheme
https with `:443`. -/
def specNormalizedHost (r : AWSRequest) : Str :=
  let host := lowerStr r.url.host
  let scheme := lowerStr r.url.scheme
  if scheme = S "http" ∧ (S ":80").isSuffixOf host then host.take (host.length - 3)
  else if scheme = S "https" ∧ (S ":443").isSuffixOf host then host.take (host.length - 4)
  else host

/-- The signature base string as the specification words it: four lines
joined by newlines — the method; the lowercased host with the port
stripped; the path with `/` substituted when empty; and the non-`Signature`
query parameters, sorted, percent-encoded and joined `k=v` with `&`. -/
def specBaseString (r : AWSRequest) : Str :=
  r.method ++ '\n' ::
  (specNormalizedHost r ++ '\n' ::
  ((if r.url.path = [] then S "/" else r.url.path) ++ '\n' ::
   urlencode (sortParams (r.url.params.filter nonSig))))

/-- The ruleset index of an event of a post-match stage (filter, modify,
proxy), if it is one. -/
def postMatchIdx : Event → Option Nat
  | .matchRun _ => none
  | .filterRun i => some i
  | .modifyRequestRun i => some i
  | .proxyRun i => some i
  | .modifyResponseRun i => some i

/- Association-list dictionary lemmas shared by the parameter dicts of the
signature engine and the TimeLock store. -/

theorem find?_map_overwrite {β : Type} (l : List (Str × β)) (k : Str) (v : β) :
    ((l.map (fun p => if p.1 == k then (k, v) else p)).find? (fun p => p.1 == k)) =
      ((l.find? (fun p => p.1 == k)).map (fun _ => (k, v))) := by
  induction l with
  | nil => rfl
  | cons p rest ih =>
    by_cases hp : p.1 = k
    · simp [List.find?_cons, hp]
    · simpa [List.find?_cons, hp, -List.find?_map] using ih

theorem find?_map_overwrite_ne {β : Type} (l : List (Str × β)) (k k' : Str) (v : β)
    (h : k' ≠ k) :
    ((l.map (fun p => if p.1 == k then (k, v) else p)).find? (fun p => p.1 == k')) =
      (l.find? (fun p => p.1 == k')) := by
  induction l with
  | nil => rfl
  | cons p rest ih =>
    by_cases hp : p.1 = k
    · have h2 : p.1 ≠ k' := by rw [hp]; exact Ne.symm h
      simpa [List.find?_cons, hp, h2, Ne.symm h, -List.find?_map] using ih
    · by_cases hp' : p.1 = k'
      · simp [List.find?_cons, hp, hp', h]
      · simpa [List.find?_cons, hp, hp', -List.find?_map] using ih

theorem find?_eq_none_of_not_any {β : Type} (l : List (Str × β)) (k : Str)
    (h : ¬ l.any (fun p => p.1 == k) = true) :
    l.find? (fun p => p.1 == k) = none := by
  rw [List.find?_eq_none]
  intro x hx hc
  exact h (List.any_eq_true.mpr ⟨x, hx, hc⟩)

theorem dictGet_dictSet_self {β : Type} (l : List (Str × β)) (k : Str) (v : β) :
    dictGet (dictSet l k v) k = some v := by
  unfold dictGet dictSet
  by_cases h : l.any (fun p => p.1 == k) = true
  · rw [if_pos h, find?_map_overwrite]
    rcases List.any_eq_true.mp h with ⟨x, hx, hpx⟩
    cases hfind : l.find? (fun p => p.1 == k) with
    | none => exact absurd hpx (List.find?_eq_none.mp hfind x hx)
    | some w => rfl
  · rw [if_neg h, List.find?_append, find?_eq_none_of_not_any l k h]
    simp

theorem dictGet_dictSet_ne {β : Type} (l : List (Str × β)) (k k' : Str) (v : β)
    (h : k' ≠ k) : dictGet (dictSet l k v) k' = dictGet l k' := by
  unfold dictGet dictSet
  by_cases hany : l.any (fun p => p.1 == k) = true
  · rw [if_pos hany, find?_map_overwrite_ne l k k' v h]
  · rw [if_neg hany, List.find?_append]
    have : List.find? (fun p => p.1 == k') [(k, v)] = none := by
      simp only [List.find?_singleton]
      rw [if_neg (by simpa using fun hc => h hc.symm)]
    rw [this]
    cases l.find? (fun p => p.1 == k') <;> rfl

theorem mem_dictSet_value {β : Type} (l : List (Str × β)) (k : Str) (v x : β)
    (h : (k, x) ∈ dictSet l k v) : x = v := by
  unfold dictSet at h
  by_cases hany : l.any (fun p => p.1 == k) = true
  · rw [if_pos hany] at h
    rcases List.mem_map.mp h with ⟨p, _, himg⟩
    by_cases hp : (p.1 == k) = true
    · rw [if_pos hp] at himg
      exact ((Prod.mk.injEq _ _ _ _).mp himg).2.symm
    · rw [if_neg hp] at himg
      exact absurd (by simp [himg] : (p.1 == k) = true) hp
  · rw [if_neg hany] at h
    rcases List.mem_append.mp h with hmem | hmem
    · exact absurd (List.any_eq_true.mpr ⟨(k, x), hmem, by simp⟩) hany
    · simpa using (List.mem_singleton.mp hmem)

theorem mem_dictSet_ne_key {β : Type} (l : List (Str × β)) (k k' : Str) (v : β) (x : β)
    (hk : k' ≠ k) (h : (k', x) ∈ dictSet l k v) : (k', x) ∈ l := by
  unfold dictSet at h
  by_cases hany : l.any (fun p => p.1 == k) = true
  · rw [if_pos hany] at h
    rcases List.mem_map.mp h with ⟨p, hp, himg⟩
    by_cases hpk : (p.1 == k) = true
    · rw [if_pos hpk] at himg
      exact absurd ((Prod.mk.injEq _ _ _ _).mp himg.symm).1 hk
    · rw [if_neg hpk] at himg
      exact himg ▸ hp
  · rw [if_neg hany] at h
    rcases List.mem_append.mp h with hmem | hmem
    · exact hmem
    · exact absurd ((Prod.mk.injEq _ _ _ _).mp (List.mem_singleton.mp hmem)).1 hk

theorem filter_map_overwrite {β : Type} (p : Str × β → Bool) (l : List (Str × β))
    (k : Str) (v : β) (hkey : ∀ q : Str × β, q.1 = k → p q = false) :
    (l.map (fun q => if q.1 == k then (k, v) else q)).filter p = l.filter p := by
  induction l with
  | nil => rfl
  | cons q rest ih =>
    simp only [beq_iff_eq] at ih
    by_cases hq : q.1 = k
    · have h1 : p (k, v) = false := hkey _ rfl
      have h2 : p q = false := hkey _ hq
      simp [List.filter_cons, hq, h1, h2, ih]
    · have himg : (if q.1 == k then (k, v) else q) = q := by simp [hq]
      simp only [List.map_cons, himg, List.filter_cons]
      cases hpq : p q <;> simp [hpq, ih]

theorem filter_dictSet_key_killed {β : Type} (p : Str × β → Bool) (l : List (Str × β))
    (k : Str) (v : β) (hkey : ∀ q : Str × β, q.1 = k → p q = false) :
    (dictSet l k v).filter p = l.filter p := by
  unfold dictSet
  by_cases hany : l.any (fun q => q.1 == k) = true
  · rw [if_pos hany]
    exact filter_map_overwrite p l k v hkey
  · rw [if_neg hany, List.filter_append]
    simp [hkey (k, v) rfl]

/- Claim C10: the signature comparison. -/

/-- C10 counterexample: on the concrete input of two empty strings the
claim demands `_are_equal` return true (the strings are equal), but the
length guard passes and `random.randint(0, -1)` raises `ValueError`
(modelled as `none`), so no boolean is returned at all. -/
theorem c10_counterexample_empty_strings :
    ([] : Str) = ([] : Str) ∧ areEqual ([] : Str) [] 0 ≠ some true ∧
    areEqual ([] : Str) [] 0 = none :=
  ⟨rfl, by decide, rfl⟩

/-- C10 (amended): for all strings `a` and `b` that are not both empty,
`_are_equal a b` returns true exactly when `a = b`, for every value the
random rotation index may take (any `rot < len a` when the lengths match;
when they differ the index is never drawn); hence signature verification is
deterministic and unaffected by the random number generator.  On two empty
strings the random draw raises `ValueError` instead of returning true. -/
theorem c10_are_equal_decides_equality (a b : Str) (rot : Nat)
    (h : a.length = b.length → a ≠ [] ∧ rot < a.length) :
    areEqual a b rot = some (a == b) := by
  unfold areEqual
  by_cases hl : a.length = b.length
  · obtain ⟨hne, hrot⟩ := h hl
    rw [if_neg (not_ne_iff.mpr hl), if_neg (by simpa [List.length_eq_zero] using hne),
      if_pos hrot]
    simp [List.take_append_drop]
  · rw [if_pos hl]
    have hab : a ≠ b := fun hc => hl (hc ▸ rfl)
    simp [hab]

/-- C10 witness: a concrete application of the amended statement. -/
theorem c10_witness : areEqual (S "ab") (S "ac") 1 = some (S "ab" == S "ac") :=
  c10_are_equal_decides_equality (S "ab") (S "ac") 1 (by decide)

/- Claim C8: rule compilation for audit stages. -/

/-- C8 counterexample: the verb `header` is valid for a modify stage (it
resolves to `HeaderModifyRule`), yet in an `audit_request` stage `find_rule`
maps the stage to the `audit` registry category, which no bundled rule
populates, so the lookup raises `KeyError` (modelled `none`) instead of
compiling. -/
theorem c8_counterexample_header_verb :
    findRule (S "modify_request") (S "header") = some RuleClass.headerModify ∧
    findRule (S "audit_request") (S "header") = none := by
  constructor <;> rfl

/-- C8 (amended): `audit_request`/`audit_response` rule lines resolve in a
separate `audit` registry category rather than the modify registry; since
no bundled rule class registers under `audit`, no verb (in particular no
modify verb) compiles in an audit stage — every audit lookup fails. -/
theorem c8_audit_stage_never_resolves (verb : Str) :
    findRule (S "audit_request") verb = none ∧
    findRule (S "audit_response") verb = none := by
  have hty : ∀ e ∈ allRules,
      e.1.1 = S "match" ∨ e.1.1 = S "filter" ∨ e.1.1 = S "modify" := by decide
  have hnone : allRules.find? (fun e => e.1.1 == S "audit" && e.1.2 == verb) = none := by
    rw [List.find?_eq_none]
    intro x hx
    rcases hty x hx with h | h | h <;>
      simp [h, (by decide : (S "match" == S "audit") = false),
        (by decide : (S "filter" == S "audit") = false),
        (by decide : (S "modify" == S "audit") = false)]
  constructor <;>
  · show (allRules.find? (fun e => e.1.1 == S "audit" && e.1.2 == verb)).map (·.2) = none
    rw [hnone]
    rfl

/- Claim C4: the filter stage returns the decision of its first rule. -/

/-- C4: for a non-empty filter stage whose first rule's action token is
`reject` or `permit`, `test_filter` returns the decision of that first rule
alone — `not predicate` under `reject`, `predicate` under `permit` — and
the rules after the first (the `rest` argument, unconstrained here) never
affect the result. -/
theorem c4_test_filter_first_rule_decides {ρ : Type} (action : Str) (pred : ρ → Bool)
    (rest : List (Str × (ρ → Bool))) (req : ρ)
    (h : action = S "reject" ∨ action = S "permit") :
    testFilter ((action, pred) :: rest) req =
      some (if action = S "reject" then !(pred req) else pred req) := by
  rcases h with h | h
  · simp [testFilter, h]
  · have hne : (S "permit") ≠ (S "reject") := by decide
    simp [testFilter, h, hne]

/-- C4 witness: a concrete two-rule filter stage where the first rule
decides and the second is never consulted. -/
theorem c4_witness :
    testFilter [(S "permit", fun n => decide (n = 3)), (S "reject", fun _ => true)]
      (3 : Nat) = some true := by
  have h := c4_test_filter_first_rule_decides (S "permit") (fun n => decide (n = 3))
    [(S "reject", fun _ => true)] (3 : Nat) (Or.inr rfl)
  rw [h]
  decide

/- Claim C3: the timestamp validation window. -/

/-- C3: with a positive threshold (`max_signature_age`, default 300),
`validate_timestamp` accepts a Timestamp parsing to exactly `now` and one
parsing to exactly `now - maxAge`; it rejects (raises) one strictly greater
than `now` or strictly older than `now - maxAge`; and when an `Expires`
parameter is present it also rejects when `Expires < now`. -/
theorem c3_validate_timestamp_window (parseTs : Str → Option Int) (now maxAge : Int)
    (params : List (Str × Str)) (tsS : Str) (tsv : Int)
    (hmax : 0 < maxAge)
    (hts : getParam params (S "Timestamp") = some tsS)
    (hparse : parseTs tsS = some tsv) :
    (getParam params (S "Expires") = none → tsv = now →
      validateTimestamp parseTs now maxAge params = .ok true) ∧
    (getParam params (S "Expires") = none → tsv = now - maxAge →
      validateTimestamp parseTs now maxAge params = .ok true) ∧
    (getParam params (S "Expires") = none → tsv > now →
      validateTimestamp parseTs now maxAge params =
        .error (S "Timestamp may not be in the future")) ∧
    (getParam params (S "Expires") = none → tsv < now - maxAge →
      validateTimestamp parseTs now maxAge params =
        .error (S "Timestamp may not be more than max_signature_age seconds ago")) ∧
    (∀ eS ex, getParam params (S "Expires") = some eS → parseTs eS = some ex →
      ex < now →
      validateTimestamp parseTs now maxAge params =
        .error (S "Request Expires time is in the past")) := by
  refine ⟨?_, ?_, ?_, ?_, ?_⟩
  · intro hexp heq
    simp only [validateTimestamp, hts, hparse, hexp]
    rw [if_neg (by omega), if_neg (by omega)]
  · intro hexp heq
    simp only [validateTimestamp, hts, hparse, hexp]
    rw [if_neg (by omega), if_neg (by omega)]
  · intro hexp hgt
    simp only [validateTimestamp, hts, hparse, hexp]
    rw [if_pos (by omega)]
  · intro hexp hlt
    simp only [validateTimestamp, hts, hparse, hexp]
    rw [if_neg (by omega), if_pos (by constructor <;> omega)]
  · intro eS ex hexp hpe hlt
    simp only [validateTimestamp, hts, hparse, hexp, hpe]
    rw [if_pos hlt]

/-- C3 witness: the boundary instants at the default threshold of 300
seconds, on a concrete parse function. -/
theorem c3_witness :
    validateTimestamp (fun s => if s == S "t0" then some 700 else none)
      1000 300 [(S "Timestamp", S "t0")] = Except.ok true := by
  have h := c3_validate_timestamp_window
    (fun s => if s == S "t0" then some 700 else none) 1000 300
    [(S "Timestamp", S "t0")] (S "t0") 700 (by decide) (by decide) (by decide)
  exact h.2.1 (by decide) (by decide)

/- Claim C9: the time-lock policy. -/

/-- Reading the lock after the interleaved operations: with no concurrent
insert under the same uuid, the final flag is the initial one or-ed with
whether some concurrent cancel hit this uuid. -/
theorem storeGet_applyOps_no_insert (ops : List StoreOp) (uid : Str) (st : Store)
    (b : Bool) (hin : StoreOp.insert uid ∉ ops) (h : storeGet st uid = some b) :
    storeGet (applyOps st ops) uid = some (b || decide (StoreOp.cancel uid ∈ ops)) := by
  induction ops generalizing st b with
  | nil => simpa using h
  | cons op rest ih =>
    have hin' : StoreOp.insert uid ∉ rest := fun hc => hin (List.mem_cons_of_mem _ hc)
    cases op with
    | insert uid' =>
      have hne : uid ≠ uid' := fun hc => hin (hc ▸ List.mem_cons_self _ _)
      show storeGet (applyOps (storeSet st uid' false) rest) uid = _
      have hget : storeGet (storeSet st uid' false) uid = some b := by
        have := dictGet_dictSet_ne st uid' uid false hne
        unfold storeGet storeSet
        rw [this]
        exact h
      rw [ih _ _ hin' hget]
      have hiff : (StoreOp.cancel uid ∈ StoreOp.insert uid' :: rest) ↔
          (StoreOp.cancel uid ∈ rest) := by simp
      rw [decide_eq_decide.mpr hiff]
    | cancel uid' =>
      by_cases hc : uid' = uid
      · subst hc
        show storeGet (applyOps (applyOp st (StoreOp.cancel uid')) rest) uid' = _
        have happ : applyOp st (StoreOp.cancel uid') = storeSet st uid' true := by
          simp only [applyOp]
          rw [h]
        have hself : storeGet (storeSet st uid' true) uid' = some true :=
          dictGet_dictSet_self st uid' true
        rw [happ, ih _ _ hin' hself]
        simp
      · show storeGet (applyOps (applyOp st (StoreOp.cancel uid')) rest) uid = _
        have hget : storeGet (applyOp st (StoreOp.cancel uid')) uid = some b := by
          simp only [applyOp]
          cases hg : storeGet st uid' with
          | none => exact h
          | some w =>
            have : storeGet (storeSet st uid' true) uid = storeGet st uid :=
              dictGet_dictSet_ne st uid' uid true (fun hcc => hc hcc.symm)
            rw [this]
            exact h
        rw [ih _ _ hin' hget]
        have hiff : (StoreOp.cancel uid ∈ StoreOp.cancel uid' :: rest) ↔
            (StoreOp.cancel uid ∈ rest) := by simp [Ne.symm hc]
        rw [decide_eq_decide.mpr hiff]

/-- C9: `grant` stores a fresh TimeLock with `cancelled = false` under the
fresh uuid, emits the rendered notification to the broker and the
suspension for the lock duration, and returns false exactly when a
`cancel` of that uuid was applied before the post-sleep read (true
otherwise); `cancel` of an id missing from the store raises. -/
theorem c9_grant_returns_not_cancelled (st : Store) (uid : Str) (dur : Int)
    (tpl : Str) (recipients : List Str) (ri et ds : Str) (midOps : List StoreOp)
    (_hfresh : storeGet st uid = none)
    (hnoins : StoreOp.insert uid ∉ midOps) :
    storeGet (storeSet st uid false) uid = some false ∧
    (grant st uid dur tpl recipients ri et ds midOps).2.2 =
      [GrantEvent.saved uid false,
       GrantEvent.notified recipients (renderTemplate tpl
         [(S "request_information", ri), (S "request_execution_time", et),
          (S "time_lock_duration", ds), (S "request_uuid", uid)]),
       GrantEvent.slept dur] ∧
    ((grant st uid dur tpl recipients ri et ds midOps).1 = .ok false ↔
      StoreOp.cancel uid ∈ midOps) ∧
    ((grant st uid dur tpl recipients ri et ds midOps).1 = .ok true ↔
      StoreOp.cancel uid ∉ midOps) ∧
    (∀ st' uid', storeGet st' uid' = none →
      cancelTimeLock st' uid' =
        .error (S "Couldn" ++ '\'' :: S "t find request with uuid")) := by
  have hread := storeGet_applyOps_no_insert midOps uid (storeSet st uid false) false
    hnoins (dictGet_dictSet_self _ _ _)
  refine ⟨dictGet_dictSet_self _ _ _, rfl, ?_, ?_, ?_⟩
  · by_cases hmem : StoreOp.cancel uid ∈ midOps <;>
      simp [grant, hread, hmem]
  · by_cases hmem : StoreOp.cancel uid ∈ midOps <;>
      simp [grant, hread, hmem]
  · intro st' uid' hmiss
    unfold cancelTimeLock
    rw [hmiss]

/-- C9 witness: a concrete grant cancelled mid-sleep returns false, and the
same grant undisturbed returns true. -/
theorem c9_witness :
    (grant [] (S "u1") 2 (S "m") [S "r"] (S "i") (S "x") (S "d")
      [StoreOp.cancel (S "u1")]).1 = Except.ok false := by
  have h := c9_grant_returns_not_cancelled [] (S "u1") 2 (S "m") [S "r"]
    (S "i") (S "x") (S "d") [StoreOp.cancel (S "u1")] (by decide) (by decide)
  exact h.2.2.1.mpr (by decide)

/- Claims C5 and C6: the ruleset loop of the WSGI application. -/

/-- Rulesets whose match stage returns false (without raising) are skipped:
they contribute only their match events, and processing continues with the
rest. -/
theorem runRulesets_skip {ρ σ : Type} (req : ρ) (pre rest : List (Ruleset ρ σ))
    (i : Nat) (hpre : ∀ rs ∈ pre, rs.matchStage req = .ok false) :
    runRulesets req i (pre ++ rest) =
      ((runRulesets req (i + pre.length) rest).1,
       (List.range' i pre.length).map Event.matchRun ++
         (runRulesets req (i + pre.length) rest).2) := by
  induction pre generalizing i with
  | nil => simp [List.range']
  | cons rs pre ih =>
    have hr : rs.matchStage req = .ok false := hpre rs (List.mem_cons_self _ _)
    have hrest : ∀ r ∈ pre, r.matchStage req = .ok false := fun r hr' =>
      hpre r (List.mem_cons_of_mem _ hr')
    show runRulesets req i (rs :: (pre ++ rest)) = _
    simp only [runRulesets, hr]
    rw [ih (i + 1) hrest]
    simp only [List.length_cons]
    have harith : i + 1 + pre.length = i + (pre.length + 1) := by omega
    rw [harith, List.range'_succ]
    simp

/-- C5 counterexample: an exception in the match stage of an earlier
ruleset yields 500 and stops iteration, although a later ruleset's match
stage accepts and its whole pipeline would succeed — where the claim, read
over the selected (accepting) ruleset, predicts the upstream response. -/
theorem c5_counterexample_match_error :
    (runPipeline
      [{ matchStage := fun _ => .error (), filterStage := fun _ => .ok (some true),
         modifyRequestStage := fun r => .ok r, proxy := fun _ => .ok 7,
         modifyResponseStage := fun s => .ok s },
       { matchStage := fun _ => .ok true, filterStage := fun _ => .ok (some true),
         modifyRequestStage := fun r => .ok r, proxy := fun _ => .ok 7,
         modifyResponseStage := fun s => .ok s }] (0 : Nat)).1 =
        .short 500 body500 ∧
    (runPipeline
      [({ matchStage := fun _ => .ok true, filterStage := fun _ => .ok (some true),
          modifyRequestStage := fun r => .ok r, proxy := fun _ => .ok 7,
          modifyResponseStage := fun s => .ok s } : Ruleset Nat Nat)] (0 : Nat)).1 =
        .upstream 7 := by
  constructor <;> rfl

/-- C5 (amended): let the scanned prefix be the rulesets whose match stage
returns false without raising.  The response is 501 when every ruleset does
so; for the first ruleset beyond such a prefix (where iteration stops), the
response is 500 when its match stage raises; 403 when its match accepts and
its filter stage yields anything but a `True` decision; the upstream
response (after `modify_response`) when match accepts, the filter permits
and the remaining stages return; and 500 when any of those stages raises. -/
theorem c5_pipeline_response_semantics {ρ σ : Type} (rules : List (Ruleset ρ σ))
    (req : ρ) :
    ((∀ rs ∈ rules, rs.matchStage req = .ok false) →
      (runPipeline rules req).1 = .short 501 body501) ∧
    (∀ pre rs post, rules = pre ++ rs :: post →
      (∀ r ∈ pre, r.matchStage req = .ok false) →
      ((rs.matchStage req = .error () →
         (runPipeline rules req).1 = .short 500 body500) ∧
       (∀ dec, rs.matchStage req = .ok true → rs.filterStage req = .ok dec →
         dec ≠ some true → (runPipeline rules req).1 = .short 403 body403) ∧
       (∀ req' resp resp', rs.matchStage req = .ok true →
         rs.filterStage req = .ok (some true) →
         rs.modifyRequestStage req = .ok req' → rs.proxy req' = .ok resp →
         rs.modifyResponseStage resp = .ok resp' →
         (runPipeline rules req).1 = .upstream resp') ∧
       (rs.matchStage req = .ok true →
         (rs.filterStage req = .error () ∨
          (rs.filterStage req = .ok (some true) ∧
           (rs.modifyRequestStage req = .error () ∨
            (∃ req', rs.modifyRequestStage req = .ok req' ∧
             (rs.proxy req' = .error () ∨
              (∃ resp, rs.proxy req' = .ok resp ∧
               rs.modifyResponseStage resp = .error ())))))) →
         (runPipeline rules req).1 = .short 500 body500))) := by
  constructor
  · intro hall
    have h := runRulesets_skip req rules [] 0 hall
    show (runRulesets req 0 rules).1 = _
    rw [← List.append_nil rules, h]
    simp [runRulesets]
  · intro pre rs post hdec hpre
    subst hdec
    have h := runRulesets_skip req pre (rs :: post) 0 hpre
    refine ⟨?_, ?_, ?_, ?_⟩
    · intro hm
      show (runRulesets req 0 (pre ++ rs :: post)).1 = _
      rw [h]
      simp only [runRulesets, hm]
    · intro dec hm hf hne
      show (runRulesets req 0 (pre ++ rs :: post)).1 = _
      rw [h]
      simp only [runRulesets, hm, hf]
      rw [if_pos hne]
    · intro req' resp resp' hm hf hmod hprox hmr
      show (runRulesets req 0 (pre ++ rs :: post)).1 = _
      rw [h]
      simp only [runRulesets, hm, hf]
      rw [if_neg (by simp)]
      simp only [hmod, hprox, hmr]
    · intro hm herr
      show (runRulesets req 0 (pre ++ rs :: post)).1 = _
      rw [h]
      rcases herr with hf | ⟨hf, herr⟩
      · simp only [runRulesets, hm, hf]
      · rcases herr with hmod | ⟨req', hmod, herr⟩
        · simp only [runRulesets, hm, hf]
          rw [if_neg (by simp)]
          simp only [hmod]
        · rcases herr with hprox | ⟨resp, hprox, hmr⟩
          · simp only [runRulesets, hm, hf]
            rw [if_neg (by simp)]
            simp only [hmod, hprox]
          · simp only [runRulesets, hm, hf]
            rw [if_neg (by simp)]
            simp only [hmod, hprox, hmr]

/-- C5 witness: concrete rulesets exercising the amended statement's 403
clause. -/
theorem c5_witness :
    (runPipeline
      [{ matchStage := fun _ => .ok false, filterStage := fun _ => .ok (some true),
         modifyRequestStage := fun r => .ok r, proxy := fun _ => .ok 9,
         modifyResponseStage := fun s => .ok s },
       { matchStage := fun _ => .ok true, filterStage := fun _ => .ok (some false),
         modifyRequestStage := fun r => .ok r, proxy := fun _ => .ok 9,
         modifyResponseStage := fun s => .ok s }] (0 : Nat)).1 =
      .short 403 body403 := by
  have h := (c5_pipeline_response_semantics
    [{ matchStage := fun _ => .ok false, filterStage := fun _ => .ok (some true),
       modifyRequestStage := fun r => .ok r, proxy := fun _ => .ok 9,
       modifyResponseStage := fun s => .ok s },
     { matchStage := fun _ => .ok true, filterStage := fun _ => .ok (some false),
       modifyRequestStage := fun r => .ok r, proxy := fun _ => .ok 9,
       modifyResponseStage := fun s => .ok s }] (0 : Nat)).2
    [{ matchStage := fun _ => .ok false, filterStage := fun _ => .ok (some true),
       modifyRequestStage := fun r => .ok r, proxy := fun _ => .ok 9,
       modifyResponseStage := fun s => .ok s }]
    { matchStage := fun _ => .ok true, filterStage := fun _ => .ok (some false),
      modifyRequestStage := fun r => .ok r, proxy := fun _ => .ok 9,
      modifyResponseStage := fun s => .ok s }
    [] rfl (by intro r hr; simp at hr; rw [hr])
  exact h.2.1 (some false) rfl rfl (by simp)

/-- When the head ruleset's match accepts, every event the loop emits
belongs to that ruleset. -/
theorem runRulesets_events_head_true {ρ σ : Type} (req : ρ) (rs : Ruleset ρ σ)
    (rest : List (Ruleset ρ σ)) (i : Nat) (hm : rs.matchStage req = .ok true) :
    ∀ e ∈ (runRulesets req i (rs :: rest)).2,
      e = .matchRun i ∨ postMatchIdx e = some i := by
  intro e he
  simp only [runRulesets, hm] at he
  split at he
  · simp only [List.mem_cons, List.mem_singleton, List.not_mem_nil, or_false] at he
    rcases he with rfl | rfl <;> simp [postMatchIdx]
  · split at he
    · simp only [List.mem_cons, List.mem_singleton, List.not_mem_nil, or_false] at he
      rcases he with rfl | rfl <;> simp [postMatchIdx]
    · split at he
      · simp only [List.mem_cons, List.mem_singleton, List.not_mem_nil, or_false] at he
        rcases he with rfl | rfl | rfl <;> simp [postMatchIdx]
      · split at he
        · simp only [List.mem_cons, List.mem_singleton, List.not_mem_nil, or_false] at he
          rcases he with rfl | rfl | rfl | rfl <;> simp [postMatchIdx]
        · split at he <;>
          · simp only [List.mem_cons, List.mem_singleton, List.not_mem_nil, or_false] at he
            rcases he with rfl | rfl | rfl | rfl | rfl <;> simp [postMatchIdx]

/-- All post-match events in one run of the loop carry a single ruleset
index. -/
theorem runRulesets_single_postmatch {ρ σ : Type} (req : ρ)
    (l : List (Ruleset ρ σ)) (i : Nat) :
    ∃ k, ∀ e ∈ (runRulesets req i l).2, ∀ j, postMatchIdx e = some j → j = k := by
  induction l generalizing i with
  | nil => exact ⟨0, by simp [runRulesets]⟩
  | cons rs rest ih =>
    cases hm : rs.matchStage req with
    | error u =>
      cases u
      refine ⟨i, ?_⟩
      intro e he j hj
      simp only [runRulesets, hm] at he
      simp only [List.mem_singleton] at he
      subst he
      simp [postMatchIdx] at hj
    | ok b =>
      cases b with
      | false =>
        obtain ⟨k, hk⟩ := ih (i + 1)
        refine ⟨k, ?_⟩
        intro e he j hj
        simp only [runRulesets, hm] at he
        rcases List.mem_cons.mp he with rfl | he'
        · simp [postMatchIdx] at hj
        · exact hk e he' j hj
      | true =>
        refine ⟨i, ?_⟩
        intro e he j hj
        rcases runRulesets_events_head_true req rs rest i hm e he with rfl | hpm
        · simp [postMatchIdx] at hj
        · rw [hpm] at hj
          exact ((Option.some.injEq _ _).mp hj).symm

/-- C6: when the selected ruleset's filter stage denies, no
`modify_request` and no proxy invocation ever appears in the run's event
trace; and any two post-match stage invocations in one run belong to the
same (single) ruleset, because iteration stops at the first ruleset whose
match stage accepts. -/
theorem c6_filter_short_circuit_and_exclusivity {ρ σ : Type}
    (rules : List (Ruleset ρ σ)) (req : ρ) :
    (∀ pre rs post dec, rules = pre ++ rs :: post →
      (∀ r ∈ pre, r.matchStage req = .ok false) →
      rs.matchStage req = .ok true →
      rs.filterStage req = .ok dec → dec ≠ some true →
      ∀ j, Event.modifyRequestRun j ∉ (runPipeline rules req).2 ∧
           Event.proxyRun j ∉ (runPipeline rules req).2) ∧
    (∀ e1 e2 j1 j2, e1 ∈ (runPipeline rules req).2 → e2 ∈ (runPipeline rules req).2 →
      postMatchIdx e1 = some j1 → postMatchIdx e2 = some j2 → j1 = j2) := by
  constructor
  · intro pre rs post dec hdec hpre hm hf hne j
    subst hdec
    have h := runRulesets_skip req pre (rs :: post) 0 hpre
    have hev : (runPipeline (pre ++ rs :: post) req).2 =
        (List.range' 0 pre.length).map Event.matchRun ++
          [Event.matchRun (0 + pre.length), Event.filterRun (0 + pre.length)] := by
      show (runRulesets req 0 (pre ++ rs :: post)).2 = _
      rw [h]
      simp only [runRulesets, hm, hf]
      rw [if_pos hne]
    rw [hev]
    constructor <;>
    · intro hc
      rcases List.mem_append.mp hc with hc' | hc'
      · rcases List.mem_map.mp hc' with ⟨n, _, hcc⟩
        exact Event.noConfusion hcc
      · simp at hc'
  · intro e1 e2 j1 j2 h1 h2 hp1 hp2
    obtain ⟨k, hk⟩ := runRulesets_single_postmatch req rules 0
    rw [hk e1 h1 j1 hp1, hk e2 h2 j2 hp2]

/-- C6 witness: a concrete run where the filter denies: the event trace
holds no modify or proxy invocation. -/
theorem c6_witness :
    Event.modifyRequestRun 0 ∉
      (runPipeline
        [({ matchStage := fun _ => .ok true, filterStage := fun _ => .ok none,
            modifyRequestStage := fun r => .ok r, proxy := fun _ => .ok 5,
            modifyResponseStage := fun s => .ok s } : Ruleset Nat Nat)] (0 : Nat)).2 ∧
    Event.proxyRun 0 ∉
      (runPipeline
        [({ matchStage := fun _ => .ok true, filterStage := fun _ => .ok none,
            modifyRequestStage := fun r => .ok r, proxy := fun _ => .ok 5,
            modifyResponseStage := fun s => .ok s } : Ruleset Nat Nat)] (0 : Nat)).2 :=
  (c6_filter_short_circuit_and_exclusivity
    [({ matchStage := fun _ => .ok true, filterStage := fun _ => .ok none,
        modifyRequestStage := fun r => .ok r, proxy := fun _ => .ok 5,
        modifyResponseStage := fun s => .ok s } : Ruleset Nat Nat)] (0 : Nat)).1
    []
    ({ matchStage := fun _ => .ok true, filterStage := fun _ => .ok none,
       modifyRequestStage := fun r => .ok r, proxy := fun _ => .ok 5,
       modifyResponseStage := fun s => .ok s } : Ruleset Nat Nat)
    [] none rfl (by intro r hr; simp at hr) rfl rfl (by simp) 0

/- Claim C7: the aws_sign modify rule. -/

/-- Looking up a header that `removeHeader` just deleted yields nothing. -/
theorem lookupHeader_removeHeader_self (hs : List (Str × Str)) (k : Str) :
    lookupHeader (removeHeader hs k) k = none := by
  unfold lookupHeader removeHeader
  have hnone : List.find? (fun p => lowerStr p.1 == lowerStr k)
      (hs.filter fun p => lowerStr p.1 != lowerStr k) = none := by
    rw [List.find?_eq_none]
    intro x hx
    have hmem := List.of_mem_filter hx
    simp only [bne_iff_ne, ne_eq] at hmem
    simp [hmem]
  rw [hnone]
  rfl

/-- Deleting one header leaves lookups of a differently-named header
unchanged. -/
theorem lookupHeader_removeHeader_ne (hs : List (Str × Str)) (k k' : Str)
    (h : lowerStr k ≠ lowerStr k') :
    lookupHeader (removeHeader hs k') k = lookupHeader hs k := by
  unfold lookupHeader removeHeader
  congr 1
  induction hs with
  | nil => rfl
  | cons p rest ih =>
    by_cases hp : lowerStr p.1 = lowerStr k'
    · have hpk : lowerStr p.1 ≠ lowerStr k := by rw [hp]; exact Ne.symm h
      simp [List.filter_cons, List.find?_cons, hp, hpk, Ne.symm h, ih]
    · by_cases hpk : lowerStr p.1 = lowerStr k
      · simp [List.filter_cons, List.find?_cons, hp, hpk, h]
      · simp [List.filter_cons, List.find?_cons, hp, hpk, ih]

/-- After the aws_sign header mutation no Authorization header remains. -/
theorem awsSignHeaders_no_authorization (hs : List (Str × Str)) :
    lookupHeader (awsSignHeaders hs) (S "Authorization") = none := by
  unfold awsSignHeaders
  by_cases h : (lookupHeader hs (S "Authorization")).isSome
  · rw [if_pos h]
    exact lookupHeader_removeHeader_self hs (S "Authorization")
  · rw [if_neg h]
    exact Option.not_isSome_iff_eq_none.mp h

/-- The aws_sign header mutation preserves the Host header. -/
theorem awsSignHeaders_preserves_host (hs : List (Str × Str)) :
    lookupHeader (awsSignHeaders hs) (S "Host") = lookupHeader hs (S "Host") := by
  unfold awsSignHeaders
  by_cases h : (lookupHeader hs (S "Authorization")).isSome
  · rw [if_pos h]
    exact lookupHeader_removeHeader_ne hs (S "Host") (S "Authorization") (by decide)
  · rw [if_neg h]

/-- C7: on a request whose effective URL carries a query string and which
has a Host header, `aws_sign` succeeds; any existing Authorization header
is removed; AWSAccessKeyId, SignatureVersion, SignatureMethod and Timestamp
are all set among the parameters being signed; and the canonical
parameters plus the (quote_plus-encoded) Signature are written into the
body when the content type is `application/x-www-form-urlencoded`, and
otherwise into the `goldengate_url` override slot, where they replace the
URL's previous query string. -/
theorem c7_aws_sign_writes_signed_form (signer : SigMethod)
    (smName sv key secret tsStr : Str) (request : ModRequest) (u q hostv : Str)
    (hsplit : splitFirst '?' (request.goldengateUrl.getD request.url) = some (u, q))
    (hhost : lookupHeader request.headers (S "Host") = some hostv) :
    awsSignCall signer smName sv key secret tsStr request =
      .ok (if request.contentType = S "application/x-www-form-urlencoded" then
        { request with
          headers := awsSignHeaders request.headers,
          body := urlencode ((sortParams
              (awsSignParams key sv smName tsStr request.params)).filter nonSig) ++
            S "&Signature=" ++ quotePlus (signer.mac secret (request.method ++ '\n' ::
              (lowerStr hostv ++ '\n' ::
               ((if request.path = [] then S "/" else request.path) ++ '\n' ::
                urlencode ((sortParams
                  (awsSignParams key sv smName tsStr request.params)).filter nonSig))))) }
      else
        { request with
          headers := awsSignHeaders request.headers,
          goldengateUrl := some (u ++ '?' :: (urlencode ((sortParams
              (awsSignParams key sv smName tsStr request.params)).filter nonSig) ++
            S "&Signature=" ++ quotePlus (signer.mac secret (request.method ++ '\n' ::
              (lowerStr hostv ++ '\n' ::
               ((if request.path = [] then S "/" else request.path) ++ '\n' ::
                urlencode ((sortParams
                  (awsSignParams key sv smName tsStr request.params)).filter nonSig))))))) }) ∧
    lookupHeader (awsSignHeaders request.headers) (S "Authorization") = none ∧
    getParam (awsSignParams key sv smName tsStr request.params)
      (S "AWSAccessKeyId") = some key ∧
    getParam (awsSignParams key sv smName tsStr request.params)
      (S "SignatureVersion") = some sv ∧
    getParam (awsSignParams key sv smName tsStr request.params)
      (S "SignatureMethod") = some smName ∧
    getParam (awsSignParams key sv smName tsStr request.params)
      (S "Timestamp") = some tsStr := by
  have hh2 : lookupHeader (awsSignHeaders request.headers) (S "Host") = some hostv := by
    rw [awsSignHeaders_preserves_host]
    exact hhost
  refine ⟨?_, awsSignHeaders_no_authorization request.headers, ?_, ?_, ?_, ?_⟩
  · show (match splitFirst '?' (request.goldengateUrl.getD request.url) with
      | none => Except.error (S "ValueError: need more than 1 value to unpack")
      | some (url, _query) => _) = _
    rw [hsplit]
    simp only [buildSignatureR, buildSignatureBaseStringR, hh2, Option.map_some]
    by_cases hct : request.contentType = S "application/x-www-form-urlencoded" <;>
      simp [hct, urlencode]
  · show dictGet _ _ = _
    unfold awsSignParams setParam
    rw [dictGet_dictSet_ne _ _ _ _ (by decide), dictGet_dictSet_ne _ _ _ _ (by decide),
      dictGet_dictSet_ne _ _ _ _ (by decide), dictGet_dictSet_self]
  · show dictGet _ _ = _
    unfold awsSignParams setParam
    rw [dictGet_dictSet_ne _ _ _ _ (by decide), dictGet_dictSet_ne _ _ _ _ (by decide),
      dictGet_dictSet_self]
  · show dictGet _ _ = _
    unfold awsSignParams setParam
    rw [dictGet_dictSet_ne _ _ _ _ (by decide), dictGet_dictSet_self]
  · show dictGet _ _ = _
    unfold awsSignParams setParam
    rw [dictGet_dictSet_self]

/-- C7 witness: a concrete non-form request; the Authorization header is
gone from the rewritten request. -/
theorem c7_witness :
    lookupHeader (awsSignHeaders [(S "Host", S "Example.com"),
      (S "Authorization", S "AWS old:sig")]) (S "Authorization") = none :=
  (c7_aws_sign_writes_signed_form
    { name := S "HmacSHA256", version := S "2", mac := fun s b => s ++ b }
    (S "HmacSHA256") (S "2") (S "AK") (S "sec") (S "T")
    { url := S "http://e.example/?a=1", goldengateUrl := none,
      headers := [(S "Host", S "Example.com"), (S "Authorization", S "AWS old:sig")],
      params := [(S "Action", S "Go")], method := S "GET", path := S "/",
      contentType := S "", body := S "" }
    (S "http://e.example/") (S "a=1") (S "Example.com") (by decide) (by decide)).2.1

/- Claim C2: the canonical signature base string. -/

/-- Filtering before or after the sort yields the same list: both sides are
sorted and are permutations of the filtered input. -/
theorem filter_sortParams (p : Str × Str → Bool) (l : List (Str × Str)) :
    (sortParams l).filter p = sortParams (l.filter p) :=
  List.eq_of_perm_of_sorted
    (((List.perm_insertionSort PairLe l).filter p).trans
      (List.perm_insertionSort PairLe (l.filter p)).symm)
    ((List.sorted_insertionSort PairLe l).filter p)
    (List.sorted_insertionSort PairLe (l.filter p))

/-- `split` never yields an empty list. -/
theorem splitChar_ne_nil (sep : Char) (s : Str) : splitChar sep s ≠ [] := by
  cases s with
  | nil => simp [splitChar]
  | cons c rest =>
    unfold splitChar
    cases splitChar sep rest with
    | nil => simp
    | cons h t =>
      by_cases hc : c = sep <;> simp [hc]

/-- `split` on a separator-free string is the singleton of that string. -/
theorem splitChar_no_sep (sep : Char) (s : Str) (h : sep ∉ s) :
    splitChar sep s = [s] := by
  induction s with
  | nil => rfl
  | cons c rest ih =>
    have hc : c ≠ sep := fun hcc => h (hcc ▸ List.mem_cons_self _ _)
    have hrest : sep ∉ rest := fun hcc => h (List.mem_cons_of_mem _ hcc)
    unfold splitChar
    rw [ih hrest]
    simp [hc]

/-- `split` at the first separator peels off the separator-free prefix. -/
theorem splitChar_append_sep (sep : Char) (a b : Str) (ha : sep ∉ a) :
    splitChar sep (a ++ sep :: b) = a :: splitChar sep b := by
  induction a with
  | nil =>
    show splitChar sep (sep :: b) = [] :: splitChar sep b
    conv_lhs => rw [splitChar]
    cases hsp : splitChar sep b with
    | nil => exact absurd hsp (splitChar_ne_nil sep b)
    | cons h t => simp
  | cons d a' ih =>
    have hd : d ≠ sep := fun hcc => ha (hcc ▸ List.mem_cons_self _ _)
    have ha' : sep ∉ a' := fun hcc => ha (List.mem_cons_of_mem _ hcc)
    show splitChar sep (d :: (a' ++ sep :: b)) = (d :: a') :: splitChar sep b
    conv_lhs => rw [splitChar]
    rw [ih ha']
    simp [hd]

/-- The port-stripping expression `''.join(host.split(':')[:-1])` equals the
separator-free prefix when the host has exactly one colon. -/
theorem strip_port_single_colon (pre tail : Str) (hpre : ':' ∉ pre)
    (htail : ':' ∉ tail) :
    joinEmpty ((splitChar ':' (pre ++ ':' :: tail)).dropLast) = pre := by
  rw [splitChar_append_sep _ _ _ hpre, splitChar_no_sep _ _ htail]
  simp [joinEmpty]

/-- C2 counterexample: for a request with scheme http and Host `[::1]:80`
(an IPv6 literal with its default port), the source's base string holds
`[1]` on the host line — `''.join(host.split(':')[:-1])` drops every colon
— while the claim's wording (strip the port) demands `[::1]`. -/
theorem c2_counterexample_multicolon_host :
    buildSignatureBaseString
      { method := S "GET",
        url := { scheme := S "http", host := S "[::1]:80", path := [], params := [] } } ≠
    specBaseString
      { method := S "GET",
        url := { scheme := S "http", host := S "[::1]:80", path := [], params := [] } } := by
  decide

/-- C2 (amended): for every request whose lowercased host contains at most
one colon, the signature base string is exactly the four lines of the
claim, joined by newlines: the method; the lowercased host with the port
stripped when scheme http pairs with `:80` or scheme https with `:443`;
the path with `/` substituted when empty; and the non-`Signature` query
parameters sorted, percent-encoded with `escape` (safe set `-_~` over
urllib's always-safe alphanumerics and `_.-`), joined `k=v` with `&`. A
host with more than one colon additionally loses its other colons when the
port is stripped. -/
theorem c2_base_string_matches_spec (r : AWSRequest)
    (hcolon : (lowerStr r.url.host).count ':' ≤ 1) :
    buildSignatureBaseString r = specBaseString r := by
  have hparams : getNormalizedParameters r =
      urlencode (sortParams (r.url.params.filter nonSig)) := by
    unfold getNormalizedParameters
    rw [filter_sortParams]
  have hhost : getNormalizedHttpHost r = specNormalizedHost r := by
    unfold getNormalizedHttpHost specNormalizedHost
    by_cases h80 : lowerStr r.url.scheme = S "http" ∧
        (S ":80").isSuffixOf (lowerStr r.url.host)
    · rw [if_pos (Or.inl h80), if_pos h80]
      obtain ⟨pre, hpre⟩ := List.isSuffixOf_iff_suffix.mp h80.2
      have hcount : pre.count ':' = 0 := by
        have h1 : (lowerStr r.url.host).count ':' = pre.count ':' + 1 := by
          rw [← hpre, List.count_append]
          rfl
        omega
      have hnocolon : ':' ∉ pre := List.count_eq_zero.mp hcount
      have hdecomp : lowerStr r.url.host = pre ++ ':' :: S "80" := hpre.symm
      rw [hdecomp, strip_port_single_colon pre (S "80") hnocolon (by decide)]
      have hlen : (pre ++ ':' :: S "80").length - 3 = pre.length := by
        have h3 : (':' :: S "80").length = 3 := rfl
        rw [List.length_append, h3]
        omega
      rw [hlen]
      exact (List.take_left pre (':' :: S "80")).symm
    · by_cases h443 : lowerStr r.url.scheme = S "https" ∧
          (S ":443").isSuffixOf (lowerStr r.url.host)
      · rw [if_pos (Or.inr h443), if_neg h80, if_pos h443]
        obtain ⟨pre, hpre⟩ := List.isSuffixOf_iff_suffix.mp h443.2
        have hcount : pre.count ':' = 0 := by
          have h1 : (lowerStr r.url.host).count ':' = pre.count ':' + 1 := by
            rw [← hpre, List.count_append]
            rfl
          omega
        have hnocolon : ':' ∉ pre := List.count_eq_zero.mp hcount
        have hdecomp : lowerStr r.url.host = pre ++ ':' :: S "443" := hpre.symm
        rw [hdecomp, strip_port_single_colon pre (S "443") hnocolon (by decide)]
        have hlen : (pre ++ ':' :: S "443").length - 4 = pre.length := by
          have h4 : (':' :: S "443").length = 4 := rfl
          rw [List.length_append, h4]
          omega
        rw [hlen]
        exact (List.take_left pre (':' :: S "443")).symm
      · rw [if_neg (not_or.mpr ⟨h80, h443⟩), if_neg h80, if_neg h443]
  unfold buildSignatureBaseString specBaseString
  rw [hparams, hhost]
  rfl

/-- C2 witness: the spec's concrete IAM scenario (empty path, so the third
line is `/`). -/
theorem c2_witness :
    buildSignatureBaseString
      { method := S "GET",
        url := { scheme := S "https", host := S "iam.amazonaws.com", path := [],
                 params := [(S "Action", S "ListUsers"), (S "Version", S "2010-05-08"),
                            (S "AWSAccessKeyId", S "AKID"),
                            (S "SignatureMethod", S "HmacSHA256"),
                            (S "SignatureVersion", S "2"),
                            (S "Timestamp", S "2011-01-01T00:00:00")] } } =
    specBaseString
      { method := S "GET",
        url := { scheme := S "https", host := S "iam.amazonaws.com", path := [],
                 params := [(S "Action", S "ListUsers"), (S "Version", S "2010-05-08"),
                            (S "AWSAccessKeyId", S "AKID"),
                            (S "SignatureMethod", S "HmacSHA256"),
                            (S "SignatureVersion", S "2"),
                            (S "Timestamp", S "2011-01-01T00:00:00")] } } :=
  c2_base_string_matches_spec _ (by decide)

/- Claim C1: escape/canonicalization injectivity toolkit. -/

/-- Hex digits of distinct nibbles differ. -/
theorem hexChar_inj : ∀ m, m < 16 → ∀ n, n < 16 → hexChar m = hexChar n → m = n := by
  decide

/-- A hex digit is never `&` or `=`. -/
theorem hexChar_ne_amp_eq (n : Nat) : hexChar n ≠ '&' ∧ hexChar n ≠ '=' := by
  unfold hexChar
  split <;> exact (by decide)

/-- The percent sign is never safe, so a safe character is never `%`. -/
theorem safeChar_ne_percent (c : Char) (h : isSafeChar c = true) : c ≠ '%' := by
  intro hc
  subst hc
  exact absurd h (by decide)

/-- `escape` unfolds one character at a time. -/
theorem escape_cons (c : Char) (s : Str) : escape (c :: s) = escChar c ++ escape s := by
  simp [escape]

/-- `escChar` never produces the empty string. -/
theorem escChar_ne_nil (c : Char) : escChar c ≠ [] := by
  unfold escChar
  by_cases h : isSafeChar c = true <;> simp [h]

/-- `escape` is injective on byte strings. -/
theorem escape_inj : ∀ (a b : Str), ByteStr a → ByteStr b → escape a = escape b → a = b := by
  intro a
  induction a with
  | nil =>
    intro b _ _ h
    cases b with
    | nil => rfl
    | cons d bs =>
      rw [escape_cons] at h
      rcases List.append_eq_nil.mp h.symm with ⟨h1, _⟩
      exact absurd h1 (escChar_ne_nil d)
  | cons c as ih =>
    intro b hba hbb h
    cases b with
    | nil =>
      rw [escape_cons] at h
      rcases List.append_eq_nil.mp h with ⟨h1, _⟩
      exact absurd h1 (escChar_ne_nil c)
    | cons d bs =>
      have hc : c.toNat < 256 := hba c (List.mem_cons_self _ _)
      have hd : d.toNat < 256 := hbb d (List.mem_cons_self _ _)
      have has : ByteStr as := fun x hx => hba x (List.mem_cons_of_mem _ hx)
      have hbs : ByteStr bs := fun x hx => hbb x (List.mem_cons_of_mem _ hx)
      rw [escape_cons, escape_cons] at h
      unfold escChar at h
      by_cases hsc : isSafeChar c = true <;> by_cases hsd : isSafeChar d = true
      · rw [if_pos hsc, if_pos hsd] at h
        simp only [List.cons_append, List.nil_append, List.cons.injEq] at h
        rw [h.1, ih bs has hbs h.2]
      · rw [if_pos hsc, if_neg hsd] at h
        simp only [List.cons_append, List.nil_append, List.cons.injEq] at h
        exact absurd h.1 (safeChar_ne_percent c hsc)
      · rw [if_neg hsc, if_pos hsd] at h
        simp only [List.cons_append, List.nil_append, List.cons.injEq] at h
        exact absurd h.1.symm (safeChar_ne_percent d hsd)
      · rw [if_neg hsc, if_neg hsd] at h
        simp only [List.cons_append, List.nil_append, List.cons.injEq] at h
        obtain ⟨-, h1, h2, h3⟩ := h
        have hcd : c.toNat = d.toNat := by
          have hdiv : c.toNat / 16 = d.toNat / 16 :=
            hexChar_inj _ (Nat.div_lt_of_lt_mul (by omega)) _
              (Nat.div_lt_of_lt_mul (by omega)) h1
          have hmod : c.toNat % 16 = d.toNat % 16 :=
            hexChar_inj _ (Nat.mod_lt _ (by omega)) _ (Nat.mod_lt _ (by omega)) h2
          omega
        have : c = d := Char.ext (UInt32.ext hcd)
        rw [this, ih bs has hbs h3]

/-- Every character `escape` emits differs from `&` and `=`. -/
theorem escape_mem_ne (s : Str) : ∀ x ∈ escape s, x ≠ '&' ∧ x ≠ '=' := by
  intro x hx
  unfold escape at hx
  rcases List.mem_flatten.mp hx with ⟨l, hl, hxl⟩
  rcases List.mem_map.mp hl with ⟨c, _, rfl⟩
  unfold escChar at hxl
  by_cases hs : isSafeChar c = true
  · rw [if_pos hs] at hxl
    simp only [List.mem_singleton] at hxl
    subst hxl
    constructor <;> intro hc <;> subst hc <;> exact absurd hs (by decide)
  · rw [if_neg hs] at hxl
    simp only [List.mem_cons, List.mem_singleton, List.not_mem_nil, or_false] at hxl
    rcases hxl with rfl | rfl | rfl
    · exact ⟨by decide, by decide⟩
    · exact hexChar_ne_amp_eq _
    · exact hexChar_ne_amp_eq _

/-- Cancelling the separator-free prefixes on both sides of a separator. -/
theorem append_sep_inj (sep : Char) : ∀ (a b u v : Str), sep ∉ a → sep ∉ b →
    a ++ sep :: u = b ++ sep :: v → a = b ∧ u = v := by
  intro a
  induction a with
  | nil =>
    intro b u v _ hb h
    cases b with
    | nil => simpa using h
    | cons d bs =>
      simp only [List.nil_append, List.cons_append, List.cons.injEq] at h
      exact absurd h.1.symm (fun hc => hb (hc ▸ List.mem_cons_self _ _))
  | cons c as ih =>
    intro b u v ha hb h
    cases b with
    | nil =>
      simp only [List.nil_append, List.cons_append, List.cons.injEq] at h
      exact absurd h.1 (fun hc => ha (hc ▸ List.mem_cons_self _ _))
    | cons d bs =>
      simp only [List.cons_append, List.cons.injEq] at h
      have has : sep ∉ as := fun hc => ha (List.mem_cons_of_mem _ hc)
      have hbs : sep ∉ bs := fun hc => hb (List.mem_cons_of_mem _ hc)
      obtain ⟨heq, hu⟩ := ih bs u v has hbs h.2
      exact ⟨by rw [h.1, heq], hu⟩

/-- `'&'.join` is injective on equally long lists of `&`-free strings. -/
theorem joinAmp_inj : ∀ (xs ys : List Str), xs.length = ys.length →
    (∀ x ∈ xs, '&' ∉ x) → (∀ y ∈ ys, '&' ∉ y) → joinAmp xs = joinAmp ys → xs = ys := by
  intro xs
  induction xs with
  | nil =>
    intro ys hlen _ _ _
    cases ys with
    | nil => rfl
    | cons y ys' => exact absurd hlen (by simp)
  | cons x xs' ih =>
    intro ys hlen hx hy h
    cases ys with
    | nil => exact absurd hlen (by simp)
    | cons y ys' =>
      cases xs' with
      | nil =>
        cases ys' with
        | nil =>
          show [x] = [y]
          rw [show joinAmp [x] = x from rfl, show joinAmp [y] = y from rfl] at h
          rw [h]
        | cons y2 ys'' => exact absurd hlen (by simp)
      | cons x2 xs'' =>
        cases ys' with
        | nil => exact absurd hlen (by simp)
        | cons y2 ys'' =>
          rw [show joinAmp (x :: x2 :: xs'') = x ++ '&' :: joinAmp (x2 :: xs'') from rfl,
            show joinAmp (y :: y2 :: ys'') = y ++ '&' :: joinAmp (y2 :: ys'') from rfl] at h
          obtain ⟨hxy, hrest⟩ := append_sep_inj '&' x y _ _
            (hx x (List.mem_cons_self _ _)) (hy y (List.mem_cons_self _ _)) h
          have := ih (y2 :: ys'') (by simpa using hlen)
            (fun z hz => hx z (List.mem_cons_of_mem _ hz))
            (fun z hz => hy z (List.mem_cons_of_mem _ hz)) hrest
          rw [hxy, this]

/-- `k=v` components are injective in the pair, for byte strings. -/
theorem encPair_inj (p q : Str × Str) (hp1 : ByteStr p.1) (hp2 : ByteStr p.2)
    (hq1 : ByteStr q.1) (hq2 : ByteStr q.2) (h : encPair p = encPair q) : p = q := by
  unfold encPair at h
  obtain ⟨h1, h2⟩ := append_sep_inj '=' (escape p.1) (escape q.1) (escape p.2) (escape q.2)
    (fun hc => (escape_mem_ne p.1 '=' hc).2 rfl)
    (fun hc => (escape_mem_ne q.1 '=' hc).2 rfl) h
  exact Prod.ext (escape_inj _ _ hp1 hq1 h1) (escape_inj _ _ hp2 hq2 h2)

/-- Mapping `encPair` is injective on lists of byte-string pairs. -/
theorem map_encPair_inj : ∀ (L M : List (Str × Str)),
    (∀ p ∈ L, ByteStr p.1 ∧ ByteStr p.2) → (∀ p ∈ M, ByteStr p.1 ∧ ByteStr p.2) →
    L.map encPair = M.map encPair → L = M := by
  intro L
  induction L with
  | nil =>
    intro M _ _ h
    cases M with
    | nil => rfl
    | cons q M' => exact absurd h (by simp)
  | cons p L' ih =>
    intro M hL hM h
    cases M with
    | nil => exact absurd h (by simp)
    | cons q M' =>
      simp only [List.map_cons, List.cons.injEq] at h
      have hp := hL p (List.mem_cons_self _ _)
      have hq := hM q (List.mem_cons_self _ _)
      rw [encPair_inj p q hp.1 hp.2 hq.1 hq.2 h.1,
        ih M' (fun z hz => hL z (List.mem_cons_of_mem _ hz))
          (fun z hz => hM z (List.mem_cons_of_mem _ hz)) h.2]

/-- No `&` occurs inside one encoded `k=v` component. -/
theorem amp_not_mem_encPair (p : Str × Str) : '&' ∉ encPair p := by
  intro h
  unfold encPair at h
  rcases List.mem_append.mp h with h1 | h1
  · exact (escape_mem_ne p.1 '&' h1).1 rfl
  · rcases List.mem_cons.mp h1 with h2 | h2
    · exact absurd h2.symm (by decide)
    · exact (escape_mem_ne p.2 '&' h2).1 rfl

/-- The canonical query string determines the (equally long, byte-string)
parameter list. -/
theorem urlencode_inj (L M : List (Str × Str)) (hlen : L.length = M.length)
    (hL : ∀ p ∈ L, ByteStr p.1 ∧ ByteStr p.2)
    (hM : ∀ p ∈ M, ByteStr p.1 ∧ ByteStr p.2)
    (h : urlencode L = urlencode M) : L = M := by
  unfold urlencode at h
  apply map_encPair_inj L M hL hM
  apply joinAmp_inj _ _ (by simp [hlen]) _ _ h
  · intro x hx
    rcases List.mem_map.mp hx with ⟨p, _, rfl⟩
    exact amp_not_mem_encPair p
  · intro x hx
    rcases List.mem_map.mp hx with ⟨p, _, rfl⟩
    exact amp_not_mem_encPair p

/-- Writing the `Signature` parameter does not change the canonical
parameter string: the canonicalization drops that key. -/
theorem norm_setSig (P : List (Str × Str)) (v : Str) :
    urlencode ((sortParams (setParam P sigKey v)).filter nonSig) =
      urlencode ((sortParams P).filter nonSig) := by
  unfold setParam
  rw [filter_sortParams, filter_sortParams,
    filter_dictSet_key_killed nonSig P sigKey v (fun q hq => by simp [nonSig, hq])]

/-- The base string of a request whose `Signature` parameter was (re)set
equals the base string of the request without it. -/
theorem base_setSig (r : AWSRequest) (v : Str) :
    buildSignatureBaseString
      { r with url := { r.url with params := setParam r.url.params sigKey v } } =
      buildSignatureBaseString r := by
  unfold buildSignatureBaseString getNormalizedHttpMethod getNormalizedHttpHost
    getNormalizedHttpPath getNormalizedParameters
  rw [norm_setSig]

/-- Mutating one parameter commutes with dropping `Signature`. -/
theorem filter_nonSig_mutate (P : List (Str × Str)) (k0 v' : Str) :
    (mutateParam P k0 v').filter nonSig = mutateParam (P.filter nonSig) k0 v' := by
  unfold mutateParam
  rw [List.filter_map]
  congr 1
  apply List.filter_congr
  intro x _
  by_cases hx : x.1 = k0 <;> simp [Function.comp, nonSig, hx]

/-- Mutating a present non-`Signature` parameter to a fresh value changes
the canonical parameter string (for byte-string parameters). -/
theorem norm_mutate_ne (P : List (Str × Str)) (k0 v0 v' : Str)
    (hmem : (k0, v0) ∈ P) (hk0 : k0 ≠ sigKey) (hv : v' ≠ v0)
    (hbP : ∀ p ∈ P, ByteStr p.1 ∧ ByteStr p.2) (hbv : ByteStr v') :
    urlencode ((sortParams (mutateParam P k0 v')).filter nonSig) ≠
      urlencode ((sortParams P).filter nonSig) := by
  intro heq
  rw [filter_sortParams, filter_sortParams, filter_nonSig_mutate] at heq
  have hlen : (sortParams (mutateParam (P.filter nonSig) k0 v')).length =
      (sortParams (P.filter nonSig)).length := by
    unfold sortParams
    rw [(List.perm_insertionSort PairLe _).length_eq,
      (List.perm_insertionSort PairLe _).length_eq]
    unfold mutateParam
    exact List.length_map _ _
  have hbF : ∀ p ∈ sortParams (P.filter nonSig), ByteStr p.1 ∧ ByteStr p.2 :=
    fun p hp => hbP p (List.mem_of_mem_filter ((List.mem_insertionSort _).mp hp))
  have hbM : ∀ p ∈ sortParams (mutateParam (P.filter nonSig) k0 v'),
      ByteStr p.1 ∧ ByteStr p.2 := by
    intro p hp
    rcases List.mem_map.mp ((List.mem_insertionSort _).mp hp) with ⟨q, hq, himg⟩
    have hqP := hbP q (List.mem_of_mem_filter hq)
    by_cases hqk : q.1 = k0
    · have : p = (k0, v') := by rw [← himg]; simp [hqk]
      subst this
      exact ⟨hqk ▸ hqP.1, hbv⟩
    · have : p = q := by rw [← himg]; simp [hqk]
      subst this
      exact hqP
  have hLM := urlencode_inj _ _ hlen hbM hbF heq
  have hmemF : (k0, v0) ∈ P.filter nonSig :=
    List.mem_filter.mpr ⟨hmem, by simp [nonSig, hk0]⟩
  have hmemS : (k0, v0) ∈ sortParams (P.filter nonSig) :=
    (List.mem_insertionSort _).mpr hmemF
  rw [← hLM] at hmemS
  rcases List.mem_map.mp ((List.mem_insertionSort _).mp hmemS) with ⟨q, _, himg⟩
  by_cases hqk : q.1 = k0
  · rw [if_pos (by simpa using hqk)] at himg
    exact hv ((Prod.mk.injEq _ _ _ _).mp himg).2
  · rw [if_neg (by simpa using hqk)] at himg
    exact hqk (congrArg Prod.fst himg)

/-- Reading an unrelated key is unaffected by the mutation. -/
theorem getParam_mutateParam_ne (l : List (Str × Str)) (k0 k' v : Str)
    (h : k' ≠ k0) : getParam (mutateParam l k0 v) k' = getParam l k' := by
  unfold getParam dictGet mutateParam
  rw [find?_map_overwrite_ne l k0 k' v h]

/-- Reading the mutated key yields the fresh value (when the key occurs). -/
theorem getParam_mutateParam_self (l : List (Str × Str)) (k0 v0 v' : Str)
    (hmem : (k0, v0) ∈ l) : getParam (mutateParam l k0 v') k0 = some v' := by
  unfold getParam dictGet mutateParam
  rw [find?_map_overwrite]
  cases hfind : l.find? (fun p => p.1 == k0) with
  | none => exact absurd (by simp) (List.find?_eq_none.mp hfind (k0, v0) hmem)
  | some w => rfl

/-- A comparison that returned true means the strings are equal. -/
theorem areEqual_some_true (a b : Str) (rot : Nat)
    (h : areEqual a b rot = some true) : a = b := by
  unfold areEqual at h
  by_cases h1 : a.length ≠ b.length
  · rw [if_pos h1] at h
    exact absurd h (by simp)
  · rw [if_neg h1] at h
    by_cases h2 : a.length = 0
    · rw [if_pos h2] at h
      exact absurd h (by simp)
    · rw [if_neg h2] at h
      by_cases h3 : rot < a.length
      · rw [if_pos h3] at h
        rw [List.take_append_drop, List.take_append_drop] at h
        simpa using h
      · rw [if_neg h3] at h
        exact absurd h (by simp)

/-- Comparing a nonempty string with itself succeeds for every in-range
rotation. -/
theorem areEqual_self (a : Str) (rot : Nat) (ha : a ≠ []) (hrot : rot < a.length) :
    areEqual a a rot = some true := by
  unfold areEqual
  rw [if_neg (by simp), if_neg (by simpa [List.length_eq_zero] using ha), if_pos hrot]
  simp

/-- Inverting a successful signature-method lookup. -/
theorem getSigMethod_some (methods : List SigMethod) (n v : Str) (m : SigMethod)
    (h : getSigMethod methods n v = some m) :
    m ∈ methods ∧ m.name = n ∧ m.version = v := by
  unfold getSigMethod at h
  have hmem := List.mem_of_find?_eq_some h
  have hp := List.find?_some h
  simp only [Bool.and_eq_true, beq_iff_eq] at hp
  exact ⟨hmem, hp.1, hp.2⟩

/-- Credential lookup in a single-entry store. -/
theorem forKey_singleton (c : Credential) (k' : Str) :
    forKey [c] k' = if c.key = k' then some c else none := by
  unfold forKey
  rw [List.find?_singleton]
  by_cases h : c.key = k' <;> simp [h]

/-- Anatomy of a successful authentication: the five parameters were
present, the key resolved to a credential, the method resolved, and the
`Signature` parameter equals the recomputed signature over the request. -/
theorem authenticate_ok_inversion (methods : List SigMethod)
    (creds : List Credential) (parseTs : Str → Option Int) (now : Int) (rot : Nat)
    (r : AWSRequest) (e : Str)
    (h : authenticate methods creds parseTs now rot r = .ok e) :
    ∃ ak sg sm sv cred signer,
      getParam r.url.params (S "AWSAccessKeyId") = some ak ∧
      getParam r.url.params sigKey = some sg ∧
      getParam r.url.params (S "SignatureMethod") = some sm ∧
      getParam r.url.params (S "SignatureVersion") = some sv ∧
      forKey creds ak = some cred ∧
      getSigMethod methods sm sv = some signer ∧
      sg = buildSignature signer r cred.secret ∧ e = cred.entity := by
  unfold authenticate at h
  split at h
  case h_2 => exact absurd h (by simp)
  case h_1 ak sg sm sv tsS hak hsg hsm hsv hts =>
    split at h
    · exact absurd h (by simp)
    · split at h
      · exact absurd h (by simp)
      · split at h
        · exact absurd h (by simp)
        case h_2 cred hcred =>
          split at h
          · exact absurd h (by simp)
          case h_2 signer hsigner =>
            split at h
            case h_1 heqc =>
              refine ⟨ak, sg, sm, sv, cred, signer, hak, hsg, hsm, hsv, hcred, hsigner,
                areEqual_some_true _ _ _ heqc, ?_⟩
              simpa using h.symm
            · exact absurd h (by simp)
            · exact absurd h (by simp)

/-- The five signature parameters of a freshly signed request. -/
theorem signedRequest_params (r : AWSRequest) (m : SigMethod) (k s tsStr : Str) :
    getParam (signedRequest r m k s tsStr).url.params (S "AWSAccessKeyId") = some k ∧
    getParam (signedRequest r m k s tsStr).url.params (S "SignatureVersion") =
      some m.version ∧
    getParam (signedRequest r m k s tsStr).url.params (S "SignatureMethod") =
      some m.name ∧
    getParam (signedRequest r m k s tsStr).url.params (S "Timestamp") = some tsStr ∧
    getParam (signedRequest r m k s tsStr).url.params sigKey =
      some (buildSignature m (preparedRequest r m k tsStr) s) := by
  simp only [signedRequest, preparedRequest]
  unfold getParam setParam
  refine ⟨?_, ?_, ?_, ?_, ?_⟩
  · rw [dictGet_dictSet_ne _ _ _ _ (by decide), dictGet_dictSet_ne _ _ _ _ (by decide),
      dictGet_dictSet_ne _ _ _ _ (by decide), dictGet_dictSet_ne _ _ _ _ (by decide),
      dictGet_dictSet_self]
  · rw [dictGet_dictSet_ne _ _ _ _ (by decide), dictGet_dictSet_ne _ _ _ _ (by decide),
      dictGet_dictSet_ne _ _ _ _ (by decide), dictGet_dictSet_self]
  · rw [dictGet_dictSet_ne _ _ _ _ (by decide), dictGet_dictSet_ne _ _ _ _ (by decide),
      dictGet_dictSet_self]
  · rw [dictGet_dictSet_ne _ _ _ _ (by decide), dictGet_dictSet_self]
  · rw [dictGet_dictSet_self]

/-- The signed request's base string coincides with the prepared (not yet
`Signature`-carrying) request's base string. -/
theorem signedRequest_base (r : AWSRequest) (m : SigMethod) (k s tsStr : Str) :
    buildSignatureBaseString (signedRequest r m k s tsStr) =
      buildSignatureBaseString (preparedRequest r m k tsStr) :=
  base_setSig (preparedRequest r m k tsStr)
    (buildSignature m (preparedRequest r m k tsStr) s)

/-- C1: signing a request with `signed_request` (with any signature method
the authenticator resolves, an ideal keyed MAC, and a timestamp inside the
window) and verifying it against the same secret succeeds — `authenticate`
returns the credential's entity; while mutating the value of any query
parameter other than `Signature` in the signed request (to byte-string
values) makes verification fail for every rotation index. -/
theorem c1_sign_verify_roundtrip (m : SigMethod) (methods : List SigMethod)
    (k s entity tsStr : Str) (r : AWSRequest) (parseTs : Str → Option Int)
    (now tsv : Int) (rot : Nat)
    (hfind : getSigMethod methods m.name m.version = some m)
    (hinj : ∀ m1 ∈ methods, ∀ m2 ∈ methods, ∀ b1 b2,
      m1.mac s b1 = m2.mac s b2 → m1.name = m2.name ∧ m1.version = m2.version ∧ b1 = b2)
    (hmacne : ∀ b, m.mac s b ≠ [])
    (hrot : ∀ b, rot < (m.mac s b).length)
    (hparse : parseTs tsStr = some tsv)
    (hwin : tsv ≤ now ∧ now - 300 ≤ tsv) :
    authenticate methods [⟨k, s, entity⟩] parseTs now rot
      (signedRequest r m k s tsStr) = .ok entity ∧
    (∀ k0 v0 v' rot', (k0, v0) ∈ (signedRequest r m k s tsStr).url.params →
      k0 ≠ sigKey → v' ≠ v0 →
      (∀ p ∈ (signedRequest r m k s tsStr).url.params, ByteStr p.1 ∧ ByteStr p.2) →
      ByteStr v' →
      (authenticate methods [⟨k, s, entity⟩] parseTs now rot'
        (mutateRequest (signedRequest r m k s tsStr) k0 v')).isOk = false) := by
  have hm : m ∈ methods := (getSigMethod_some methods m.name m.version m hfind).1
  obtain ⟨hAK, hSV, hSM, hTS, hSig⟩ := signedRequest_params r m k s tsStr
  have hbase := signedRequest_base r m k s tsStr
  have h300 : TIMESTAMP_THRESHOLD = (300 : Int) := rfl
  constructor
  · unfold authenticate
    rw [hAK, hSig, hSM, hSV, hTS]
    simp only [hparse]
    rw [if_neg (by rw [h300]; omega)]
    have hfk : forKey [⟨k, s, entity⟩] k = some ⟨k, s, entity⟩ := by
      rw [forKey_singleton]
      simp
    simp only [hfk, hfind]
    have hexp : buildSignature m (signedRequest r m k s tsStr) s =
        buildSignature m (preparedRequest r m k tsStr) s := by
      unfold buildSignature
      rw [hbase]
    have hae : areEqual (buildSignature m (preparedRequest r m k tsStr) s)
        (buildSignature m (signedRequest r m k s tsStr) s) rot = some true := by
      rw [hexp]
      exact areEqual_self _ _ (hmacne _) (hrot _)
    simp only [hae]
  · intro k0 v0 v' rot' hmem hk0 hv hbytes hbv
    cases hres : authenticate methods [⟨k, s, entity⟩] parseTs now rot'
        (mutateRequest (signedRequest r m k s tsStr) k0 v') with
    | error msg => rfl
    | ok e =>
      exfalso
      obtain ⟨ak, sg, sm', sv', cred, signer, iak, isg, ism, isv, icred, isigner,
        isigeq, -⟩ := authenticate_ok_inversion _ _ _ _ _ _ _ hres
      have hmutp : (mutateRequest (signedRequest r m k s tsStr) k0 v').url.params =
          mutateParam (signedRequest r m k s tsStr).url.params k0 v' := rfl
      rw [hmutp] at iak isg ism isv
      -- the credential store pins the key and the secret
      rw [forKey_singleton] at icred
      by_cases hkak : k = ak
      case neg => rw [if_neg hkak] at icred; exact Option.noConfusion icred
      case pos =>
      rw [if_pos hkak] at icred
      obtain rfl : (⟨k, s, entity⟩ : Credential) = cred := Option.some.inj icred
      -- the Signature parameter survives the mutation
      have hsg : sg = buildSignature m (preparedRequest r m k tsStr) s := by
        rw [getParam_mutateParam_ne _ _ _ _ (Ne.symm hk0), hSig] at isg
        exact (Option.some.inj isg).symm
      have hsignermem := getSigMethod_some methods sm' sv' signer isigner
      -- the two MACs agree, hence names, versions and base strings agree
      have hmacs : m.mac s (buildSignatureBaseString (preparedRequest r m k tsStr)) =
          signer.mac s (buildSignatureBaseString
            (mutateRequest (signedRequest r m k s tsStr) k0 v')) := by
        have := isigeq
        rw [hsg] at this
        exact this
      obtain ⟨hname, hver, hbases⟩ := hinj m hm signer hsignermem.1 _ _ hmacs
      -- now split on which parameter was mutated
      by_cases hkAK : k0 = S "AWSAccessKeyId"
      · subst hkAK
        rw [getParam_mutateParam_self _ _ v0 _ hmem] at iak
        obtain rfl : v' = ak := Option.some.inj iak
        have hv0 : v0 = k := by
          have hmem' := hmem
          simp only [signedRequest, preparedRequest] at hmem'
          unfold setParam at hmem'
          have h1 := mem_dictSet_ne_key _ _ _ _ _ (by decide) hmem'
          have h2 := mem_dictSet_ne_key _ _ _ _ _ (by decide) h1
          have h3 := mem_dictSet_ne_key _ _ _ _ _ (by decide) h2
          have h4 := mem_dictSet_ne_key _ _ _ _ _ (by decide) h3
          exact mem_dictSet_value _ _ _ _ h4
        exact hv (hkak.symm.trans hv0.symm)
      · by_cases hkSM : k0 = S "SignatureMethod"
        · subst hkSM
          rw [getParam_mutateParam_self _ _ v0 _ hmem] at ism
          obtain rfl : v' = sm' := Option.some.inj ism
          have hv0 : v0 = m.name := by
            have hmem' := hmem
            simp only [signedRequest, preparedRequest] at hmem'
            unfold setParam at hmem'
            have h1 := mem_dictSet_ne_key _ _ _ _ _ (by decide) hmem'
            have h2 := mem_dictSet_ne_key _ _ _ _ _ (by decide) h1
            exact mem_dictSet_value _ _ _ _ h2
          exact hv (by rw [hv0, hname, hsignermem.2.1])
        · by_cases hkSV : k0 = S "SignatureVersion"
          · subst hkSV
            rw [getParam_mutateParam_self _ _ v0 _ hmem] at isv
            obtain rfl : v' = sv' := Option.some.inj isv
            have hv0 : v0 = m.version := by
              have hmem' := hmem
              simp only [signedRequest, preparedRequest] at hmem'
              unfold setParam at hmem'
              have h1 := mem_dictSet_ne_key _ _ _ _ _ (by decide) hmem'
              have h2 := mem_dictSet_ne_key _ _ _ _ _ (by decide) h1
              have h3 := mem_dictSet_ne_key _ _ _ _ _ (by decide) h2
              exact mem_dictSet_value _ _ _ _ h3
            exact hv (by rw [hv0, hver, hsignermem.2.2])
          · -- an ordinary parameter: the canonical strings must differ
            rw [getParam_mutateParam_ne _ _ _ _ (fun hc => hkSM hc.symm), hSM] at ism
            rw [getParam_mutateParam_ne _ _ _ _ (fun hc => hkSV hc.symm), hSV] at isv
            obtain rfl : m.name = sm' := Option.some.inj ism
            obtain rfl : m.version = sv' := Option.some.inj isv
            obtain rfl : m = signer := Option.some.inj (hfind ▸ isigner)
            -- the base strings cannot in fact agree
            have hnormne := norm_mutate_ne (signedRequest r m k s tsStr).url.params
              k0 v0 v' hmem hk0 hv hbytes hbv
            apply hnormne
            -- peel the three common lines off the base-string equality
            have hb2 : buildSignatureBaseString (preparedRequest r m k tsStr) =
                buildSignatureBaseString (signedRequest r m k s tsStr) := hbase.symm
            rw [hb2] at hbases
            unfold buildSignatureBaseString getNormalizedHttpMethod
              getNormalizedHttpHost getNormalizedHttpPath getNormalizedParameters
              at hbases
            have h1 := List.append_cancel_left hbases
            obtain ⟨-, h2⟩ := List.cons.inj h1
            have h3 := List.append_cancel_left h2
            obtain ⟨-, h4⟩ := List.cons.inj h3
            have h5 := List.append_cancel_left h4
            obtain ⟨-, h6⟩ := List.cons.inj h5
            exact h6.symm

set_option maxRecDepth 8192 in
/-- C1 witness: a concrete credential, method (with an injective toy MAC),
request and timestamp; the signed request authenticates, and mutating its
`Action` parameter makes authentication fail. -/
theorem c1_witness :
    authenticate [⟨S "HmacSHA256", S "2", fun sec b => 'x' :: (sec ++ b)⟩]
      [⟨S "AK", S "sec", S "alice"⟩]
      (fun t => if t == S "T" then some (100 : Int) else none) 100 0
      (signedRequest ⟨S "GET", ⟨S "http", S "host.example", S "/",
          [(S "Action", S "List")]⟩⟩
        ⟨S "HmacSHA256", S "2", fun sec b => 'x' :: (sec ++ b)⟩
        (S "AK") (S "sec") (S "T")) = Except.ok (S "alice") ∧
    (authenticate [⟨S "HmacSHA256", S "2", fun sec b => 'x' :: (sec ++ b)⟩]
      [⟨S "AK", S "sec", S "alice"⟩]
      (fun t => if t == S "T" then some (100 : Int) else none) 100 0
      (mutateRequest
        (signedRequest ⟨S "GET", ⟨S "http", S "host.example", S "/",
            [(S "Action", S "List")]⟩⟩
          ⟨S "HmacSHA256", S "2", fun sec b => 'x' :: (sec ++ b)⟩
          (S "AK") (S "sec") (S "T"))
        (S "Action") (S "Other"))).isOk = false := by
  have h := c1_sign_verify_roundtrip
    ⟨S "HmacSHA256", S "2", fun sec b => 'x' :: (sec ++ b)⟩
    [⟨S "HmacSHA256", S "2", fun sec b => 'x' :: (sec ++ b)⟩]
    (S "AK") (S "sec") (S "alice") (S "T")
    ⟨S "GET", ⟨S "http", S "host.example", S "/", [(S "Action", S "List")]⟩⟩
    (fun t => if t == S "T" then some (100 : Int) else none)
    100 100 0
    rfl
    (by
      intro m1 hm1 m2 hm2 b1 b2 hmac
      rw [List.mem_singleton] at hm1 hm2
      subst hm1
      subst hm2
      refine ⟨rfl, rfl, ?_⟩
      simp only [List.cons.injEq, true_and] at hmac
      exact List.append_cancel_left hmac)
    (fun b h => List.cons_ne_nil _ _ h)
    (fun b => Nat.succ_pos _)
    rfl
    (by decide)
  exact ⟨h.1, h.2 (S "Action") (S "List") (S "Other") 0
    (by decide) (by decide) (by decide) (by decide) (by decide)⟩

end GG
